import Mathlib

/-!
# Channel event emitter

A shallow embedding of `channelEventEmitter.go`: the reflective signature
matcher, the per-batch dispatch of the listen loop, the handler registry and
the event table behind `Register`, `Unregister`, `UnregisterEvent`, `Channels`
and `Events`.

Conventions of the embedding.

* A Go type is a term of `GoType`; two `reflect.Type` values are `==` exactly
  when the terms are equal.
* `Value` stands both for an `interface{}` value and for a `reflect.Value`:
  either nil (the zero `reflect.Value`) or a dynamic type with a data word.
* A Go panic is the result `none`.
* Channels are identified by the number they were allocated with; `Chan.nil`
  is the nil channel.
-/

namespace ChannelEmitter

/-! ## Types and values -/

mutual
/-- Go types as seen through `reflect.Type`. -/
inductive GoType where
  | int
  | string
  | bool
  | float64
  | named (name : String)
  | slice (elem : GoType)
  | func (variadic : Bool) (ins outs : GoTypes)
deriving DecidableEq
/-- Parameter and result lists of a function type. -/
inductive GoTypes where
  | nil
  | cons (t : GoType) (ts : GoTypes)
deriving DecidableEq
end

/-- The types of a signature list, in order. -/
def GoTypes.toList : GoTypes → List GoType
  | .nil => []
  | .cons t ts => t :: ts.toList

/-- The signature list holding the given types. -/
def GoTypes.ofList : List GoType → GoTypes
  | [] => .nil
  | t :: ts => .cons t (GoTypes.ofList ts)

/-- The data word of a value: a number, a text, or an address (the closure
pointer of a function value). -/
inductive Data where
  | int (i : Int)
  | text (s : String)
  | addr (p : Nat)
deriving DecidableEq

/-- An `interface{}` value, or the `reflect.Value` made from it. `nil` is the
nil interface, whose `reflect.ValueOf` is the zero Value. Go compares two
`reflect.Value`s with `==` field by field, which is equality of these terms. -/
inductive Value where
  | nil
  | mk (typ : GoType) (data : Data)
deriving DecidableEq

/-- The function `reflect.ValueOf`. -/
def ValueOf (i : Value) : Value := i

/-- The method `reflect.Value.Interface`. -/
def Value.Interface (v : Value) : Value := v

/-- The method `reflect.Value.Type`; it panics on the zero Value. -/
def Value.Type : Value → Option GoType
  | .nil => none
  | .mk t _ => some t

/-- The function `reflect.SliceOf`. -/
def SliceOf (t : GoType) : GoType := .slice t

/-- Whether `reflect.Type.Kind` is `reflect.Func`. -/
def GoType.isFunc : GoType → Bool
  | .func _ _ _ => true
  | _ => false

/-! ## The signature matcher -/

/-- The `for i := 0; i < fnNumIn; i++` loop of `isValidFuncForEvent`, entered
with `isValid = true`; the first argument counts the iterations that remain.
Reading `args[i]` out of range, or taking `Type()` of a zero Value, panics. -/
def isValidFuncForEvent_loop (isVariadic : Bool) (fnIn : List GoType) (args : List Value)
    (fnNumIn : Nat) : Nat → Nat → Option Bool
  | 0, _ => some true
  | k + 1, i =>
    match args[i]? with
    | none => none
    | some arg =>
      match arg.Type, fnIn[i]? with
      | some argType, some fnInType =>
        let argType := if isVariadic && (i + 1 == fnNumIn) then SliceOf argType else argType
        let isValid := decide (argType = fnInType)
        if !isValid then some false
        else isValidFuncForEvent_loop isVariadic fnIn args fnNumIn k (i + 1)
      | _, _ => none

/-- The function `isValidFuncForEvent(fn, args)`; `fn.Type().IsVariadic()` panics unless `fn`
is a function value. -/
def isValidFuncForEvent (fn : Value) (args : List Value) : Option Bool :=
  match fn.Type with
  | some (.func isVariadic ins _) =>
    let argsLen := args.length
    let fnNumIn := ins.toList.length
    if (!isVariadic && argsLen == fnNumIn) || (isVariadic && argsLen ≥ fnNumIn) then
      isValidFuncForEvent_loop isVariadic ins.toList args fnNumIn fnNumIn 0
    else
      some false
  | _ => none

/-! ## Handlers, receivers and the dispatch of one batch -/

/-- The struct `Receiver`. -/
structure Receiver where
  FuncName : String
  Values : List Value
deriving DecidableEq

/-- The struct `handler`. -/
structure handler where
  name : String
  fn : Value
deriving DecidableEq

/-- A channel: nil, or the channel made by the `id`-th call of `make`. -/
inductive Chan where
  | nil
  | made (id : Nat)
deriving DecidableEq

/-- The struct `eventHandler`. -/
structure eventHandler where
  token : Nat
  handlers : List handler
  emitChan : Chan
  receiveChan : Chan
  doneChan : Chan
deriving DecidableEq

/-- The type `valuesResult`. -/
abbrev valuesResult := List Value

/-- The method `valuesResult.receiver`: the handler name, and the results
appended one by one after `Interface()`. -/
def valuesResult.receiver (vArr : valuesResult) (h : handler) : Receiver :=
  { FuncName := h.name
    Values := vArr.foldl (fun values value => values ++ [value.Interface]) [] }

/-- Whether a type is one of the opaque named types of the model. -/
def GoType.isNamed : GoType → Bool
  | .named _ => true
  | _ => false

/-- The method `reflect.Type.AssignableTo` on the types of the model. Identical
types are assignable. Two different types among the predeclared types and the
slice and function literals never are. When one of the two is a named type the
answer depends on its declaration (it may be an interface, or share its
underlying type), which is what `viaNamed` supplies. -/
def AssignableTo (viaNamed : GoType → GoType → Bool) (xt targ : GoType) : Bool :=
  decide (xt = targ) || ((xt.isNamed || targ.isNamed) && viaNamed xt targ)

/-- Whether the type of the value `x` is assignable to `targ`; the zero Value is
assignable to nothing. -/
def Value.assignableTo (viaNamed : GoType → GoType → Bool) (x : Value) (targ : GoType) : Bool :=
  match x.Type with
  | some xt => AssignableTo viaNamed xt targ
  | none => false

/-- The method `reflect.Value.Call` on the function value `v`. It panics when `v`
is not a function, when there are too few arguments, or too many for a
function that is not variadic, when an argument is the zero Value, when an
argument is not assignable to its parameter, and when an argument of the
variadic tail is not assignable to the element type of the variadic parameter.
Otherwise the function runs: `body` gives its results, `none` when the
function itself panics or does not return. -/
def Value.Call (viaNamed : GoType → GoType → Bool)
    (body : Value → List Value → Option (List Value)) (v : Value) (input : List Value) :
    Option (List Value) :=
  match v.Type with
  | some (.func isVariadic ins _) =>
    let t := ins.toList
    let n := if isVariadic then t.length - 1 else t.length
    if input.length < n then none
    else if !isVariadic && input.length > n then none
    else if input.any (fun x => x.Type.isNone) then none
    else if !((input.take n).zip (t.take n)).all (fun p => p.1.assignableTo viaNamed p.2) then
      none
    else if isVariadic then
      match t[n]? with
      | some (.slice elem) =>
        if (input.drop n).all (fun x => x.assignableTo viaNamed elem) then body v input
        else none
      | _ => none
    else body v input
  | _ => none

/-- When the goroutines of one dispatch read the range variable `h`. For the
invocation spawned in iteration `i`, `callLag i` is the number of iterations
the `range` loop has advanced when the goroutine evaluates `h.fn.Call(args)`,
and `sendLag i` the number it has advanced further when the goroutine evaluates
`receiver(h)`. With one variable per iteration (Go 1.22 and later) both are 0;
with one variable for the whole loop (earlier Go) the scheduler decides. -/
structure Schedule where
  callLag : Nat → Nat
  sendLag : Nat → Nat

/-- The schedule in which every invocation reads the handler of the iteration
that spawned it. -/
def Schedule.own : Schedule := { callLag := fun _ => 0, sendLag := fun _ => 0 }

/-- The value of the range variable `h`, read `lag` iterations after the
iteration in which it was `h`, with the handlers `rest` still to come; once the
loop has ended the variable keeps the last handler. -/
def rangeVar : handler → List handler → Nat → handler
  | h, [], _ => h
  | h, _ :: _, 0 => h
  | _, h2 :: rest, lag + 1 => rangeVar h2 rest lag

/-- The `for _, h := range eH.handlers` loop of `listen` for one batch, from
iteration `i` on. `Call` is `reflect.Value.Call` on a handler (`none` when the
invocation panics or does not return). The matcher runs in the loop, on the
handler of the iteration. The goroutine it spawns closes over the variable `h`
and reads it twice, when it calls and when it builds the Receiver, at the
moments `sched` gives. The result lists the Receivers sent on
`eH.receiveChan`, one per spawned invocation, in the order of the iterations
that spawned them; the order in which the concurrent sends arrive is left
open. -/
def listen_handlers (Call : Value → List Value → Option (List Value)) (sched : Schedule)
    (args : List Value) : Nat → List handler → Option (List Receiver)
  | _, [] => some []
  | i, h :: hs =>
    match isValidFuncForEvent h.fn args with
    | none => none
    | some false => listen_handlers Call sched args (i + 1) hs
    | some true =>
      let hCall := rangeVar h hs (sched.callLag i)
      let hSend := rangeVar h hs (sched.callLag i + sched.sendLag i)
      match Call hCall.fn args with
      | none => none
      | some results =>
        (listen_handlers Call sched args (i + 1) hs).map
          (fun sent => valuesResult.receiver results hSend :: sent)

/-- What `listen` does with one batch `a` read from `eH.emitChan`: convert the
arguments with `reflect.ValueOf`, then dispatch to the handlers. -/
def listen_batch (Call : Value → List Value → Option (List Value)) (sched : Schedule)
    (eH : eventHandler) (a : List Value) : Option (List Receiver) :=
  let args := a.map ValueOf
  listen_handlers Call sched args 0 eH.handlers

/-! ## The event table -/

/-- The struct `Emitter`: the map from event name to event handler. -/
structure Emitter where
  events : AList (fun _ : String => eventHandler)

/-- The goroutine spawned by `UnregisterEvent` for the record `token` stored
under `event`; `cleared` tells whether it has run `eH.handlers = nil` and
closed the emit channel. -/
structure Teardown where
  event : String
  token : Nat
  cleared : Bool
deriving DecidableEq

/-- The program state: the package variable `eventHandlerCounter`, the number
of channels made so far, the emitter, and the teardown goroutines that have
been spawned and have not finished. -/
structure State where
  eventHandlerCounter : Nat
  chans : Nat
  e : Emitter
  goroutines : List Teardown

/-- The constructor `New()`. -/
def New : Emitter := { events := ∅ }

/-- The state of a program that has just called `New()`. -/
def State.init : State :=
  { eventHandlerCounter := 0, chans := 0, e := New, goroutines := [] }

/-- The handler record stored under `event`, if any. -/
def State.lookup (s : State) (event : String) : Option eventHandler :=
  s.e.events.lookup event

/-- The state after `e.events[event] = eH`, or after a write through the
pointer `eH` that the table holds under `event`. -/
def State.store (s : State) (event : String) (eH : eventHandler) : State :=
  { s with e := { events := s.e.events.insert event eH } }

/-- The method `Emitter.eventExists`: the record, whether it was found, and the error. -/
def eventExists (e : Emitter) (event : String) : Option eventHandler × Bool × Option String :=
  match e.events.lookup event with
  | some eH => (some eH, true, none)
  | none => (none, false, some ("emitter: " ++ event ++ " are not registered"))

/-- The names known to the Go runtime: `runtime.FuncForPC(pc).Name()` when the
lookup succeeds, and `reflect.Value.String()`. -/
structure Runtime where
  FuncForPC : Nat → Option String
  String : Value → String

/-- The method `reflect.Value.Pointer` of a function value. -/
def Value.Pointer : Value → Nat
  | .mk _ (.addr p) => p
  | _ => 0

/-- Whether `v.Kind() == reflect.Func`. -/
def Value.isFunc : Value → Bool
  | .mk t _ => t.isFunc
  | .nil => false

/-- The function `nameOfFunc`. -/
def nameOfFunc (rt : Runtime) (v : Value) : String :=
  if v.isFunc then
    match rt.FuncForPC v.Pointer with
    | some rf => rf
    | none => rt.String v
  else rt.String v

/-- The call `fmt.Sprintln(errMsg, err)`: the operands separated by a blank, then a
newline. -/
def Sprintln (errMsg err : String) : String :=
  errMsg ++ " " ++ err ++ "\n"

/-- The goroutine of `Register` together with the `range errChan` loop that
consumes it: `i` is the position of the next argument, `hs` is `eH.handlers`,
`errMsg` the messages gathered so far. `reflect.TypeOf(fn).Kind()` panics on a
nil argument. -/
def Register_loop (rt : Runtime) : List Value → Nat → List handler → String →
    Option (List handler × String)
  | [], _, hs, errMsg => some (hs, errMsg)
  | fn :: fns, i, hs, errMsg =>
    match fn.Type with
    | none => none
    | some t =>
      if !t.isFunc then
        Register_loop rt fns (i + 1) hs
          (Sprintln errMsg
            ("Argument " ++ toString i ++ " is not of type reflect.Func and was not registered"))
      else
        let v := ValueOf fn
        Register_loop rt fns (i + 1) (hs ++ [{ name := nameOfFunc rt v, fn := v }]) errMsg

/-- What `Register` returns, and the state it leaves. -/
structure Registered where
  emit : Chan
  receive : Chan
  err : Option String
  state : State

/-- The method `Emitter.Register`. A new event gets a fresh record on three fresh
channels (its `listen` goroutine is what `listen_batch` describes); then the
arguments are processed, and the record of the event holds the resulting
handlers. The result is `none` when the call panics. -/
def Register (rt : Runtime) (s : State) (event : String) (fns : List Value) :
    Option Registered :=
  let (found, s1) : eventHandler × State :=
    match eventExists s.e event with
    | (some eH, _, _) => (eH, s)
    | (none, _, _) =>
      let eventHandlerCounter := s.eventHandlerCounter + 1
      let eH : eventHandler :=
        { token := eventHandlerCounter
          handlers := []
          emitChan := .made s.chans
          receiveChan := .made (s.chans + 1)
          doneChan := .made (s.chans + 2) }
      (eH, { s with eventHandlerCounter := eventHandlerCounter
                    chans := s.chans + 3 }.store event eH)
  match Register_loop rt fns 0 found.handlers "" with
  | none => none
  | some (hs, errMsg) =>
    let eH := { found with handlers := hs }
    some { emit := eH.emitChan
           receive := eH.receiveChan
           err := some ("emitter: " ++ errMsg)
           state := s1.store event eH }

/-- The builtin `copy(s[dstOff:], s[srcOff:])` on one backing array. -/
def copy {α : Type} (s : List α) (dstOff srcOff : Nat) : List α :=
  let src := s.drop srcOff
  let n := min (s.length - dstOff) src.length
  s.take dstOff ++ src.take n ++ s.drop (dstOff + n)

/-- The inner `for i, h := range eH.handlers` loop of `Unregister`: the
positions, from `i` on, of the handlers whose `fn` is `==` to `v`. -/
def Unregister_indices (v : Value) : List handler → Nat → List Nat
  | [], _ => []
  | h :: hs, i =>
    if h.fn = v then i :: Unregister_indices v hs (i + 1) else Unregister_indices v hs (i + 1)

/-- The body of `for _, fn := range fns` in `Unregister`. -/
def Unregister_one (handlers : List handler) (fn : Value) : List handler :=
  let iSlice := Unregister_indices (ValueOf fn) handlers 0
  if iSlice.length > 0 then
    let handlers := iSlice.foldl (fun hs iToRemove => copy hs iToRemove (iToRemove + 1)) handlers
    handlers.take (handlers.length - iSlice.length)
  else handlers

/-- The method `Emitter.Unregister`: the error and the state it leaves. -/
def Unregister (s : State) (event : String) (fns : List Value) : Option String × State :=
  match eventExists s.e event with
  | (some eH, _, err) =>
    let eH := { eH with handlers := fns.foldl Unregister_one eH.handlers }
    (err, s.store event eH)
  | (none, _, err) => (err, s)

/-- The method `Emitter.UnregisterEvent`: the error and the state on return. For a
registered event the call only spawns the teardown goroutine. -/
def UnregisterEvent (s : State) (event : String) : Option String × State :=
  match eventExists s.e event with
  | (some eH, _, err) =>
    (err, { s with goroutines := { event := event, token := eH.token, cleared := false }
                                  :: s.goroutines })
  | (none, _, err) => (err, s)

/-- The first part of the teardown goroutine: `eH.handlers = nil` on the record
it captured (seen through the table while that record is still stored) and
`close(eH.emitChan)`. -/
def teardownClear (s : State) (g : Teardown) : State :=
  let s1 :=
    match s.e.events.lookup g.event with
    | some eH => if eH.token = g.token then s.store g.event { eH with handlers := [] } else s
    | none => s
  { s1 with goroutines := { g with cleared := true } :: s.goroutines.erase g }

/-- The end of the teardown goroutine, once the done signal has arrived: the
channels are closed and the deferred `delete(e.events, event)` runs. -/
def teardownFinish (s : State) (g : Teardown) : State :=
  { s with e := { events := s.e.events.erase g.event }
           goroutines := s.goroutines.erase g }

/-- The method `Emitter.Channels`. -/
def Channels (e : Emitter) (event : String) : Chan × Chan × Option String :=
  match eventExists e event with
  | (some eH, _, err) => (eH.emitChan, eH.receiveChan, err)
  | (none, _, err) => (.nil, .nil, err)

/-- The method `Emitter.Events`: the keys of the map in the order the map yields them. -/
def Events (e : Emitter) : List String × Option String :=
  if e.events.entries.length ≠ 0 then
    let keys := e.events.keys
    (keys.map (fun k => k), none)
  else
    ([], some "emitter: There are not events registereds")

/-- The states a program can be in: it starts from `New()`, calls `Register`
(which returns unless it panics), `Unregister` and `UnregisterEvent`, and the
teardown goroutines spawned by `UnregisterEvent` advance in between. -/
inductive Reachable (rt : Runtime) : State → Prop where
  | init : Reachable rt State.init
  | register {s : State} {r : Registered} (event : String) (fns : List Value) :
      Reachable rt s → Register rt s event fns = some r → Reachable rt r.state
  | unregister {s : State} (event : String) (fns : List Value) :
      Reachable rt s → Reachable rt (Unregister s event fns).2
  | unregisterEvent {s : State} (event : String) :
      Reachable rt s → Reachable rt (UnregisterEvent s event).2
  | clear {s : State} (g : Teardown) :
      Reachable rt s → g ∈ s.goroutines → g.cleared = false → Reachable rt (teardownClear s g)
  | finish {s : State} (g : Teardown) :
      Reachable rt s → g ∈ s.goroutines → g.cleared = true → Reachable rt (teardownFinish s g)

/-! ## Sample data -/

/-- A runtime that knows no function names. -/
def rt0 : Runtime := { FuncForPC := fun _ => none, String := fun _ => "<func Value>" }

/-- The value `1`. -/
def one : Value := .mk .int (.int 1)

/-- A function value of type `func()` at address `p`. -/
def param0Out0Func (p : Nat) : Value := .mk (.func false .nil .nil) (.addr p)

/-- A function value of type `func(int)` at address `p`. -/
def param1Out0Func (p : Nat) : Value := .mk (.func false (.cons .int .nil) .nil) (.addr p)

/-- A function value of type `func(int) int` at address `p`. -/
def param1Out1Func (p : Nat) : Value :=
  .mk (.func false (.cons .int .nil) (.cons .int .nil)) (.addr p)

/-! ## Reference descriptions used in the statements -/

/-- The handlers a registration is meant to add: the arguments that are
functions, in argument order, each under the name derived from the callable. -/
def functionHandlers (rt : Runtime) (fns : List Value) : List handler :=
  (fns.filter Value.isFunc).map (fun v => { name := nameOfFunc rt v, fn := v })

/-- The record `eH` with its handler sequence replaced. -/
def eventHandler.withHandlers (eH : eventHandler) (hs : List handler) : eventHandler :=
  { eH with handlers := hs }

/-- Every record of the table has an emit and a receive channel that were made. -/
def ChansMade (s : State) : Prop :=
  ∀ event eH, s.lookup event = some eH → eH.emitChan ≠ Chan.nil ∧ eH.receiveChan ≠ Chan.nil

/-- Registering the given names one after the other, each without handlers. -/
def RegisterAll (rt : Runtime) : State → List String → Option State
  | s, [] => some s
  | s, name :: names => (Register rt s name []).bind fun r => RegisterAll rt r.state names

/-- Sample handler bodies: a function with one result returns its first
argument, every other function returns nothing. -/
def CallSample (fn : Value) (args : List Value) : Option (List Value) :=
  match fn with
  | .mk (.func _ _ (.cons _ .nil)) _ => some (args.take 1)
  | _ => some []

/-- A record with the given handlers, on the first three channels. -/
def sampleEvent (hs : List handler) : eventHandler :=
  { token := 1, handlers := hs, emitChan := .made 0, receiveChan := .made 1, doneChan := .made 2 }

/-- The state after `New()` and `Register("EVENT")`. -/
def sampleState : State :=
  (State.mk 1 3 New []).store "EVENT" (sampleEvent [])

/-- A function value of type `func(xs ...int)` at address `p`. -/
def variadicIntFunc (p : Nat) : Value :=
  .mk (.func true (.cons (.slice .int) .nil) .nil) (.addr p)

/-- A function value of type `func(s string, xs ...int)` at address `p`. -/
def stringVariadicIntFunc (p : Nat) : Value :=
  .mk (.func true (.cons .string (.cons (.slice .int) .nil)) .nil) (.addr p)

/-- The string `"a"`. -/
def strA : Value := .mk .string (.text "a")

/-- A value of type `[]int` whose backing array is at address `p`. -/
def intSlice (p : Nat) : Value := .mk (.slice .int) (.addr p)

/-- The type the matcher compares with parameter `i`: the argument type, wrapped
by `reflect.SliceOf` when the handler is variadic and `i` is its last
parameter. -/
def comparedType (isVariadic : Bool) (fnNumIn i : Nat) (argType : GoType) : GoType :=
  if isVariadic && (i + 1 == fnNumIn) then SliceOf argType else argType

/-- The state after `New()` and one `Register` of `EVENT` that left the handlers
`hs` in its registry. -/
def stateWith (hs : List handler) : State :=
  (State.mk 1 3 New []).store "EVENT" (sampleEvent hs)

/-- The handler `f`, a `func()`, as `Register` stores it under `rt0`. -/
def handlerF : handler := { name := "<func Value>", fn := param0Out0Func 10 }

/-- The handler `g`, a `func(int)`, as `Register` stores it under `rt0`. -/
def handlerG : handler := { name := "<func Value>", fn := param1Out0Func 20 }

/-- The handler `k`, a `func(int) int`, as `Register` stores it under `rt0`. -/
def handlerK : handler := { name := "<func Value>", fn := param1Out1Func 30 }

/-- The state after `New()`, `Register("A", f)` and `Register("B", f)`. -/
def twoEventsState : State :=
  ((State.mk 2 6 New []).store "A" (sampleEvent [handlerF])).store "B"
    (eventHandler.mk 2 [handlerF] (Chan.made 3) (Chan.made 4) (Chan.made 5))

/-! ## Lemmas on the matcher -/

/-- On a non-variadic signature whose remaining parameters and typed arguments
have equal length, the loop answers whether the remaining types agree. -/
theorem isValidFuncForEvent_loop_nonvariadic (fnIn : List GoType) (args : List Value) (n : Nat) :
    ∀ (k i : Nat), k + i = fnIn.length → args.length = fnIn.length →
      (∀ a ∈ args, a.Type ≠ none) →
      isValidFuncForEvent_loop false fnIn args n k i
        = some (decide ((args.drop i).map Value.Type = (fnIn.drop i).map some)) := by
  intro k
  induction k with
  | zero =>
    intro i hk hlen _
    have h1 : args.drop i = [] := List.drop_eq_nil_of_le (by omega)
    have h2 : fnIn.drop i = [] := List.drop_eq_nil_of_le (by omega)
    simp [isValidFuncForEvent_loop, h1, h2]
  | succ k ih =>
    intro i hk hlen htyped
    have hi : i < fnIn.length := by omega
    have hia : i < args.length := by omega
    have hda : args.drop i = args[i] :: args.drop (i + 1) := List.drop_eq_getElem_cons hia
    have hdf : fnIn.drop i = fnIn[i] :: fnIn.drop (i + 1) := List.drop_eq_getElem_cons hi
    have hga : args[i]? = some args[i] := List.getElem?_eq_getElem hia
    have hgf : fnIn[i]? = some fnIn[i] := List.getElem?_eq_getElem hi
    have hmem : args[i] ∈ args := List.getElem_mem hia
    obtain ⟨t, ht⟩ : ∃ t, args[i].Type = some t := by
      cases h : args[i].Type with
      | none => exact absurd h (htyped _ hmem)
      | some t => exact ⟨t, rfl⟩
    rw [isValidFuncForEvent_loop, hga]
    simp only [ht, hgf, hda, hdf, List.map_cons, Bool.false_and]
    by_cases heq : t = fnIn[i]
    · subst heq
      simp [ih (i + 1) (by omega) hlen htyped]
    · simp [heq]

/-- Two type lists agree exactly when they are equally long and agree at every
position. -/
theorem map_Type_eq_iff (args : List Value) (fnIn : List GoType) :
    args.map Value.Type = fnIn.map some ↔
      args.length = fnIn.length ∧
        ∀ i, i < fnIn.length → args[i]?.bind Value.Type = fnIn[i]? := by
  constructor
  · intro h
    have hlen : args.length = fnIn.length := by
      simpa using congrArg List.length h
    refine ⟨hlen, fun i hi => ?_⟩
    have hia : i < args.length := by omega
    have := congrArg (fun l => l[i]?) h
    simp only [List.getElem?_map, List.getElem?_eq_getElem hia, List.getElem?_eq_getElem hi,
      Option.map_some'] at this
    simp only [List.getElem?_eq_getElem hia, List.getElem?_eq_getElem hi, Option.some_bind]
    exact Option.some.inj this
  · rintro ⟨hlen, h⟩
    apply List.ext_getElem?
    intro i
    simp only [List.getElem?_map]
    by_cases hi : i < fnIn.length
    · have hia : i < args.length := by omega
      have := h i hi
      simp only [List.getElem?_eq_getElem hia, List.getElem?_eq_getElem hi,
        Option.some_bind] at this
      simp [List.getElem?_eq_getElem hia, List.getElem?_eq_getElem hi, this]
    · have h1 : args[i]? = none := List.getElem?_eq_none (by omega)
      have h2 : fnIn[i]? = none := List.getElem?_eq_none (by omega)
      simp [h1, h2]

/-- C1: for a non-variadic handler with parameter types `ins` and a batch of
typed arguments, `isValidFuncForEvent` returns (without panicking) a boolean
that is true exactly when the batch has as many arguments as the handler has
parameters and the dynamic type of each argument is the parameter type at the
same position; a handler without parameters matches exactly the empty batch. -/
theorem isValidFuncForEvent_nonvariadic_exact (ins outs : GoTypes) (d : Data) (args : List Value)
    (htyped : ∀ a ∈ args, a.Type ≠ none) :
    ∃ b, isValidFuncForEvent (.mk (.func false ins outs) d) args = some b ∧
      (b = true ↔ args.length = ins.toList.length ∧
        ∀ i, i < ins.toList.length → args[i]?.bind Value.Type = ins.toList[i]?) ∧
      (ins = .nil → (b = true ↔ args = [])) := by
  have key : ∀ b : Bool,
      (b = true ↔ args.length = ins.toList.length ∧
        ∀ i, i < ins.toList.length → args[i]?.bind Value.Type = ins.toList[i]?) →
      (ins = .nil → (b = true ↔ args = [])) := by
    intro b hb hnil
    subst hnil
    rw [hb]
    constructor
    · rintro ⟨h, _⟩
      exact List.length_eq_zero.mp (by simpa [GoTypes.toList] using h)
    · rintro rfl
      simp [GoTypes.toList]
  by_cases hlen : args.length = ins.toList.length
  · refine ⟨decide (args.map Value.Type = ins.toList.map some), ?_, ?_, ?_⟩
    · have h := isValidFuncForEvent_loop_nonvariadic ins.toList args ins.toList.length
        ins.toList.length 0 (by omega) hlen htyped
      simpa [isValidFuncForEvent, Value.Type, hlen] using h
    · rw [decide_eq_true_iff]
      exact map_Type_eq_iff args ins.toList
    · exact key _ (by rw [decide_eq_true_iff]; exact map_Type_eq_iff args ins.toList)
  · refine ⟨false, ?_, ?_, ?_⟩
    · simp [isValidFuncForEvent, Value.Type, hlen]
    · simp [hlen]
    · exact key _ (by simp [hlen])

/-- C1, at `func(int)` and the batch `[1]`: the handler matches `[1]` and
matches neither `["a"]` nor `[1, 1]`; `func()` matches `[]` and not `[1]`. -/
theorem isValidFuncForEvent_nonvariadic_exact_witness :
    (∀ a ∈ [one], a.Type ≠ none) ∧
    (∃ b, isValidFuncForEvent (.mk (.func false (.cons .int .nil) .nil) (.addr 0)) [one] = some b ∧
      (b = true ↔ [one].length = (GoTypes.cons .int .nil).toList.length ∧
        ∀ i, i < (GoTypes.cons .int .nil).toList.length →
          [one][i]?.bind Value.Type = (GoTypes.cons .int .nil).toList[i]?) ∧
      (GoTypes.cons .int .nil = .nil → (b = true ↔ [one] = []))) ∧
    isValidFuncForEvent (param1Out0Func 0) [one] = some true ∧
    isValidFuncForEvent (param1Out0Func 0) [.mk .string (.text "a")] = some false ∧
    isValidFuncForEvent (param1Out0Func 0) [one, one] = some false ∧
    isValidFuncForEvent (param0Out0Func 0) [] = some true ∧
    isValidFuncForEvent (param0Out0Func 0) [one] = some false :=
  ⟨by decide,
   isValidFuncForEvent_nonvariadic_exact (.cons .int .nil) .nil (.addr 0) [one] (by decide),
   by decide, by decide, by decide, by decide, by decide⟩

/-! ## Dispatch of one batch -/

/-- Appending the converted results one by one builds the converted list. -/
theorem foldl_append_Interface (vArr acc : List Value) :
    vArr.foldl (fun values value => values ++ [value.Interface]) acc
      = acc ++ vArr.map Value.Interface := by
  induction vArr generalizing acc with
  | nil => simp
  | cons v vs ih => simp [ih]

/-- The Receiver built from a handler and its results. -/
theorem valuesResult_receiver_eq (vArr : valuesResult) (h : handler) :
    valuesResult.receiver vArr h = { FuncName := h.name, Values := vArr.map Value.Interface } := by
  simp [valuesResult.receiver, foldl_append_Interface]

/-- Read without delay, the range variable holds the handler of its iteration. -/
theorem rangeVar_zero (h : handler) (hs : List handler) : rangeVar h hs 0 = h := by
  cases hs <;> rfl

/-- The dispatch loop when every invocation reads the handler of its own
iteration, matching never panics and every matched invocation returns: one
Receiver per handler whose signature matches, with its name and its results. -/
theorem listen_handlers_eq (Call : Value → List Value → Option (List Value)) (args : List Value)
    (hs : List handler)
    (hmatch : ∀ h ∈ hs, isValidFuncForEvent h.fn args ≠ none)
    (hcall : ∀ h ∈ hs, isValidFuncForEvent h.fn args = some true → Call h.fn args ≠ none) :
    ∀ i, listen_handlers Call Schedule.own args i hs
      = some ((hs.filter (fun h => decide (isValidFuncForEvent h.fn args = some true))).map
          (fun h => { FuncName := h.name
                      Values := ((Call h.fn args).getD []).map Value.Interface })) := by
  induction hs with
  | nil => intro i; simp [listen_handlers]
  | cons h hs ih =>
    intro i
    have ih1 := ih (fun x hx => hmatch x (List.mem_cons_of_mem _ hx))
      (fun x hx => hcall x (List.mem_cons_of_mem _ hx)) (i + 1)
    have hm := hmatch h (List.mem_cons_self _ _)
    have hc := hcall h (List.mem_cons_self _ _)
    rw [listen_handlers]
    cases hv : isValidFuncForEvent h.fn args with
    | none => exact absurd hv hm
    | some b =>
      cases b with
      | false => simp [ih1, hv]
      | true =>
        cases hr : Call h.fn args with
        | none => exact absurd hr (hc hv)
        | some results =>
          have hc0 : Schedule.own.callLag i = 0 := rfl
          have hs0 : Schedule.own.sendLag i = 0 := rfl
          simp [ih1, hv, hr, valuesResult_receiver_eq, hc0, hs0, rangeVar_zero]

/-- C2: a batch that no handler matches makes the dispatch loop send nothing on
the receive channel, however the goroutines are scheduled: with an empty
registry every batch yields no Receiver at all (so no Receiver with an empty
name either), and so does the batch `[1]` against the single handler
`func()`. -/
theorem listen_batch_no_match_sends_nothing :
    (∀ (Call : Value → List Value → Option (List Value)) (sched : Schedule) (a : List Value),
      listen_batch Call sched (sampleEvent []) a = some []) ∧
    (∀ sched : Schedule, ((Register rt0 State.init "EVENT" []).bind fun r =>
      (r.state.lookup "EVENT").bind fun eH => listen_batch CallSample sched eH [one])
        = some []) ∧
    (∀ sched : Schedule,
      listen_batch CallSample sched (sampleEvent [{ name := "f", fn := param0Out0Func 0 }]) [one]
        = some []) :=
  ⟨fun _ _ _ => rfl, fun _ => rfl, fun _ => rfl⟩

/-- The dispatch of a batch when every invocation reads the handler of its own
iteration, matching does not panic and every matched invocation returns: one
Receiver per registry entry whose signature matches the batch (an entry
registered twice counts twice) and none for the other entries; each Receiver
carries the name of its entry and the values returned by that entry, in
order. -/
theorem listen_batch_own_iteration (Call : Value → List Value → Option (List Value))
    (eH : eventHandler) (a : List Value)
    (hmatch : ∀ h ∈ eH.handlers, isValidFuncForEvent h.fn (a.map ValueOf) ≠ none)
    (hcall : ∀ h ∈ eH.handlers, isValidFuncForEvent h.fn (a.map ValueOf) = some true →
      Call h.fn (a.map ValueOf) ≠ none) :
    ∃ sent, listen_batch Call Schedule.own eH a = some sent ∧
      sent = (eH.handlers.filter
          (fun h => decide (isValidFuncForEvent h.fn (a.map ValueOf) = some true))).map
        (fun h => { FuncName := h.name
                    Values := ((Call h.fn (a.map ValueOf)).getD []).map Value.Interface }) ∧
      sent.length = eH.handlers.countP
        (fun h => decide (isValidFuncForEvent h.fn (a.map ValueOf) = some true)) := by
  refine ⟨_, listen_handlers_eq Call (a.map ValueOf) eH.handlers hmatch hcall 0, rfl, ?_⟩
  rw [List.length_map, List.countP_eq_length_filter]

/-- C3: the dispatch does not send one Receiver for every handler that matches.
The handler `func(xs ...int)` matches the batch `[1, "a"]`, since the matcher
looks at the first variadic argument only, and `reflect.Value.Call` then panics
on the string, whatever the body of the handler and however the goroutines are
scheduled: no Receiver is sent. On the batch `[1, 2]` the same handler sends
its Receiver. When the loop has one variable `h` for all its iterations and
the first goroutine builds its Receiver one iteration late, the registry
`[k, g]` with `k` a `func(int) int` and `g` a `func(int)` sends, for the batch
`[1]`, the values of `k` under the name of `g`. -/
theorem listen_batch_matching_handler_sends_nothing :
    isValidFuncForEvent (variadicIntFunc 0) ([one, strA].map ValueOf) = some true ∧
    (∀ (viaNamed : GoType → GoType → Bool) (body : Value → List Value → Option (List Value)),
      Value.Call viaNamed body (variadicIntFunc 0) ([one, strA].map ValueOf) = none) ∧
    (∀ (viaNamed : GoType → GoType → Bool) (body : Value → List Value → Option (List Value))
        (sched : Schedule),
      listen_batch (Value.Call viaNamed body) sched
        (sampleEvent [{ name := "v", fn := variadicIntFunc 0 }]) [one, strA] = none) ∧
    (∀ (viaNamed : GoType → GoType → Bool) (sched : Schedule),
      listen_batch (Value.Call viaNamed CallSample) sched
        (sampleEvent [{ name := "v", fn := variadicIntFunc 0 }]) [one, one]
        = some [{ FuncName := "v", Values := [] }]) ∧
    (∀ viaNamed : GoType → GoType → Bool,
      listen_batch (Value.Call viaNamed CallSample)
        { callLag := fun _ => 0, sendLag := fun _ => 1 }
        (sampleEvent [{ name := "k", fn := param1Out1Func 2 },
          { name := "g", fn := param1Out0Func 1 }]) [one]
        = some [{ FuncName := "g", Values := [one] }, { FuncName := "g", Values := [] }]) :=
  ⟨by decide, fun _ _ => rfl, fun _ _ _ => rfl, fun _ _ => rfl, fun _ => rfl⟩

/-! ## Register -/

/-- The handlers `Register` builds from its arguments: the function values, in
order, each under the name `nameOfFunc` gives it. -/
theorem Register_loop_typed (rt : Runtime) (fns : List Value) :
    ∀ (i : Nat) (hs : List handler) (errMsg : String), (∀ fn ∈ fns, fn.Type ≠ none) →
      ∃ msg, Register_loop rt fns i hs errMsg = some (hs ++ functionHandlers rt fns, msg) := by
  induction fns with
  | nil => intro i hs errMsg _; exact ⟨errMsg, by simp [Register_loop, functionHandlers]⟩
  | cons fn fns ih =>
    intro i hs errMsg htyped
    have hrest : ∀ x ∈ fns, x.Type ≠ none := fun x hx => htyped x (List.mem_cons_of_mem _ hx)
    cases fn with
    | nil => exact absurd rfl (htyped Value.nil (List.mem_cons_self _ _))
    | mk t d =>
      by_cases hf : t.isFunc = true
      · obtain ⟨msg, hmsg⟩ := ih (i + 1)
          (hs ++ [{ name := nameOfFunc rt (.mk t d), fn := .mk t d }]) errMsg hrest
        exact ⟨msg, by
          simp [Register_loop, Value.Type, Value.isFunc, hf, ValueOf, hmsg, functionHandlers]⟩
      · obtain ⟨msg, hmsg⟩ := ih (i + 1) hs
          (Sprintln errMsg
            ("Argument " ++ toString i ++ " is not of type reflect.Func and was not registered"))
          hrest
        exact ⟨msg, by
          simp [Register_loop, Value.Type, Value.isFunc, hf, hmsg, functionHandlers]⟩

/-- On a registered event `Register` returns this: the record keeps its token and channels
and gains the function arguments. -/
theorem Register_found (rt : Runtime) (s : State) (event : String) (fns : List Value)
    (eH : eventHandler) (hfound : s.lookup event = some eH)
    (htyped : ∀ fn ∈ fns, fn.Type ≠ none) :
    ∃ msg, Register rt s event fns = some
      ⟨eH.emitChan, eH.receiveChan, some ("emitter: " ++ msg),
        s.store event (eH.withHandlers (eH.handlers ++ functionHandlers rt fns))⟩ := by
  obtain ⟨msg, hmsg⟩ := Register_loop_typed rt fns 0 eH.handlers "" htyped
  refine ⟨msg, ?_⟩
  have hl : s.e.events.lookup event = some eH := hfound
  simp [Register, eventExists, hl, hmsg, eventHandler.withHandlers]

/-- On a new event `Register` returns this: a fresh record on three fresh channels holding the
function arguments. -/
theorem Register_fresh (rt : Runtime) (s : State) (event : String) (fns : List Value)
    (hnew : s.lookup event = none) (htyped : ∀ fn ∈ fns, fn.Type ≠ none) :
    ∃ msg, Register rt s event fns = some
      ⟨.made s.chans, .made (s.chans + 1), some ("emitter: " ++ msg),
        State.store ⟨s.eventHandlerCounter + 1, s.chans + 3, s.e, s.goroutines⟩ event
          ⟨s.eventHandlerCounter + 1, functionHandlers rt fns, .made s.chans,
            .made (s.chans + 1), .made (s.chans + 2)⟩⟩ := by
  obtain ⟨msg, hmsg⟩ := Register_loop_typed rt fns 0 [] "" htyped
  refine ⟨msg, ?_⟩
  have hl : s.e.events.lookup event = none := hnew
  simp [Register, eventExists, hl, hmsg, State.store, AList.insert_insert]

/-- The record stored by `store` is the one found afterwards. -/
theorem lookup_store_self (s : State) (event : String) (eH : eventHandler) :
    (s.store event eH).lookup event = some eH := by
  simp [State.store, State.lookup, AList.lookup_insert]

/-- A `store` under one name leaves the other names alone. -/
theorem lookup_store_ne (s : State) (event other : String) (eH : eventHandler)
    (hne : other ≠ event) : (s.store event eH).lookup other = s.lookup other := by
  simp [State.store, State.lookup, AList.lookup_insert_ne hne]

/-- The loop of `Register` returns only when none of its arguments is nil. -/
theorem Register_loop_some (rt : Runtime) (fns : List Value) :
    ∀ (i : Nat) (hs : List handler) (errMsg : String) (out : List handler × String),
      Register_loop rt fns i hs errMsg = some out → ∀ fn ∈ fns, fn.Type ≠ none := by
  induction fns with
  | nil => intro _ _ _ _ _ fn hfn; cases hfn
  | cons fn fns ih =>
    intro i hs errMsg out hout x hx
    cases fn with
    | nil => simp [Register_loop, Value.Type] at hout
    | mk t d =>
      rcases List.mem_cons.mp hx with rfl | hx
      · simp [Value.Type]
      · simp only [Register_loop, Value.Type] at hout
        split at hout
        · exact ih _ _ _ _ hout x hx
        · exact ih _ _ _ _ hout x hx

/-- A call of `Register` that returns had no nil argument. -/
theorem Register_some_typed (rt : Runtime) (s : State) (event : String) (fns : List Value)
    (r : Registered) (hr : Register rt s event fns = some r) : ∀ fn ∈ fns, fn.Type ≠ none := by
  unfold Register at hr
  simp only at hr
  split at hr
  · cases hr
  · rename_i hs msg hloop
    exact Register_loop_some rt fns _ _ _ _ hloop

/-- Without handler arguments `Register` always returns. -/
theorem Register_no_handlers_returns (rt : Runtime) (s : State) (event : String) :
    ∃ r, Register rt s event [] = some r ∧ r.err = some "emitter: " := by
  cases hl : s.lookup event with
  | none =>
    have hl2 : s.e.events.lookup event = none := hl
    exact ⟨_, by simp [Register, eventExists, hl2, Register_loop]; rfl, rfl⟩
  | some eH =>
    have hl2 : s.e.events.lookup event = some eH := hl
    exact ⟨_, by simp [Register, eventExists, hl2, Register_loop]; rfl, rfl⟩

/-- C4: with the handler `f` registered twice, `Unregister(event, f)` does not
remove every entry equal to `f` and keep the rest: from `[f, f, g]` it leaves
`[f]` (one `f` stays, `g` is lost), and from `[f, g, f, k]` it leaves `[g, f]`.
Afterwards the batch `[]` still reaches `f`, and the batch `[1]` no longer
reaches `g`. -/
theorem Unregister_duplicates_leaves_wrong_handlers :
    ((Register rt0 State.init "EVENT" [param0Out0Func 10, param0Out0Func 10, param1Out0Func 20]).bind
      fun r => ((Unregister r.state "EVENT" [param0Out0Func 10]).2.lookup "EVENT").map
        fun eH => eH.handlers.map handler.fn) = some [param0Out0Func 10] ∧
    ((Register rt0 State.init "EVENT"
        [param0Out0Func 10, param1Out0Func 20, param0Out0Func 10, param1Out1Func 30]).bind
      fun r => ((Unregister r.state "EVENT" [param0Out0Func 10]).2.lookup "EVENT").map
        fun eH => eH.handlers.map handler.fn) = some [param1Out0Func 20, param0Out0Func 10] ∧
    (∀ sched : Schedule,
      ((Register rt0 State.init "EVENT"
          [param0Out0Func 10, param0Out0Func 10, param1Out0Func 20]).bind
        fun r => ((Unregister r.state "EVENT" [param0Out0Func 10]).2.lookup "EVENT").bind
          fun eH => (listen_batch CallSample sched eH []).bind
            fun sent0 => (listen_batch CallSample sched eH [one]).map
              fun sent1 => (sent0.length, sent1.length)) = some (1, 0)) := by
  refine ⟨by decide, by decide, fun _ => rfl⟩

/-- C5: when every argument has a dynamic type, `Register` returns and the
handler sequence of the event is its previous sequence (empty for a new event)
followed by the arguments that are functions, in argument order, each under the
name derived from the callable; a second call appends in the same way, so
handlers registered in two calls sit in the registry in registration order. -/
theorem Register_appends_function_arguments (rt : Runtime) (s : State) (event : String)
    (fns : List Value) (htyped : ∀ fn ∈ fns, fn.Type ≠ none) :
    ∃ r, Register rt s event fns = some r ∧
      (r.state.lookup event).map eventHandler.handlers
        = some (((s.lookup event).map eventHandler.handlers).getD [] ++ functionHandlers rt fns) ∧
      functionHandlers rt fns
        = (fns.filter Value.isFunc).map (fun v => { name := nameOfFunc rt v, fn := v }) ∧
      ∀ fns2 : List Value, (∀ fn ∈ fns2, fn.Type ≠ none) →
        ∃ r2, Register rt r.state event fns2 = some r2 ∧
          (r2.state.lookup event).map eventHandler.handlers
            = some (((s.lookup event).map eventHandler.handlers).getD [] ++ functionHandlers rt fns
                ++ functionHandlers rt fns2) := by
  have step : ∀ (s : State) (fns : List Value), (∀ fn ∈ fns, fn.Type ≠ none) →
      ∃ r, Register rt s event fns = some r ∧
        (r.state.lookup event).map eventHandler.handlers
          = some (((s.lookup event).map eventHandler.handlers).getD []
              ++ functionHandlers rt fns) := by
    intro s fns htyped
    cases hl : s.lookup event with
    | none =>
      obtain ⟨msg, hmsg⟩ := Register_fresh rt s event fns hl htyped
      exact ⟨_, hmsg, by simp [lookup_store_self]⟩
    | some eH =>
      obtain ⟨msg, hmsg⟩ := Register_found rt s event fns eH hl htyped
      exact ⟨_, hmsg, by simp [lookup_store_self, eventHandler.withHandlers]⟩
  obtain ⟨r, hr, hh⟩ := step s fns htyped
  refine ⟨r, hr, hh, rfl, ?_⟩
  intro fns2 htyped2
  obtain ⟨r2, hr2, hh2⟩ := step r.state fns2 htyped2
  refine ⟨r2, hr2, ?_⟩
  rw [hh2]
  cases hl : r.state.lookup event with
  | none => simp [hl] at hh
  | some eH2 =>
    simp only [hl, Option.map_some', Option.some.injEq] at hh
    simp [hh]

/-- C5, at the new event `EVENT` and the arguments `1, A, "x", B`: the registry
is `[A, B]`; after a further `Register(EVENT, 2, A)` it is `[A, B, A]`. -/
theorem Register_appends_function_arguments_witness :
    (∀ fn ∈ [one, param0Out0Func 10, Value.mk .string (.text "x"), param1Out0Func 20],
      fn.Type ≠ none) ∧
    (∃ r, Register rt0 State.init "EVENT"
        [one, param0Out0Func 10, Value.mk .string (.text "x"), param1Out0Func 20] = some r ∧
      (r.state.lookup "EVENT").map (fun eH => eH.handlers.map handler.fn)
        = some [param0Out0Func 10, param1Out0Func 20] ∧
      ∃ r2, Register rt0 r.state "EVENT" [one, param0Out0Func 10] = some r2 ∧
        (r2.state.lookup "EVENT").map (fun eH => eH.handlers.map handler.fn)
          = some [param0Out0Func 10, param1Out0Func 20, param0Out0Func 10]) := by
  refine ⟨by decide, ?_⟩
  obtain ⟨r, hr, hh, _, hnext⟩ := Register_appends_function_arguments rt0 State.init "EVENT"
    [one, param0Out0Func 10, Value.mk .string (.text "x"), param1Out0Func 20] (by decide)
  obtain ⟨r2, hr2, hh2⟩ := hnext [one, param0Out0Func 10] (by decide)
  refine ⟨r, hr, ?_, r2, hr2, ?_⟩
  · have h1 : Option.map (List.map handler.fn) (some
        ((Option.map eventHandler.handlers (State.init.lookup "EVENT")).getD [] ++
          functionHandlers rt0
            [one, param0Out0Func 10, Value.mk .string (.text "x"), param1Out0Func 20]))
        = some [param0Out0Func 10, param1Out0Func 20] := by decide
    have := (congrArg (Option.map (List.map handler.fn)) hh).trans h1
    simpa [Option.map_map, Function.comp_def] using this
  · have h2 : Option.map (List.map handler.fn) (some
        ((Option.map eventHandler.handlers (State.init.lookup "EVENT")).getD [] ++
          functionHandlers rt0
            [one, param0Out0Func 10, Value.mk .string (.text "x"), param1Out0Func 20] ++
          functionHandlers rt0 [one, param0Out0Func 10]))
        = some [param0Out0Func 10, param1Out0Func 20, param0Out0Func 10] := by decide
    have := (congrArg (Option.map (List.map handler.fn)) hh2).trans h2
    simpa [Option.map_map, Function.comp_def] using this

/-- C6: the error `Register` returns is never nil: registering the event
`EVENT` without arguments, or with a function as only argument, returns the
error with text `emitter: `; with the arguments `1, 2` the two messages follow
that text. -/
theorem Register_error_is_never_nil :
    (Register rt0 State.init "EVENT" []).map Registered.err = some (some "emitter: ") ∧
    (Register rt0 State.init "EVENT" [param0Out0Func 10]).map Registered.err
      = some (some "emitter: ") ∧
    ((Register rt0 State.init "EVENT" [one, one]).map fun r => r.err.isSome) = some true := by
  refine ⟨by decide, by decide, by decide⟩

/-! ## Unregister, UnregisterEvent, Channels -/

/-- On a registered event `Unregister` rewrites the handler sequence of its
record and returns a nil error. -/
theorem Unregister_found (s : State) (event : String) (fns : List Value) (eH : eventHandler)
    (hfound : s.lookup event = some eH) :
    Unregister s event fns
      = (none, s.store event (eH.withHandlers (fns.foldl Unregister_one eH.handlers))) := by
  have hl : s.e.events.lookup event = some eH := hfound
  simp [Unregister, eventExists, hl, eventHandler.withHandlers]

/-- On an unknown event `Unregister` returns the error and changes nothing. -/
theorem Unregister_missing (s : State) (event : String) (fns : List Value)
    (hnew : s.lookup event = none) :
    Unregister s event fns = (some ("emitter: " ++ event ++ " are not registered"), s) := by
  have hl : s.e.events.lookup event = none := hnew
  simp [Unregister, eventExists, hl]

/-- The call `UnregisterEvent` never touches the table before it returns. -/
theorem UnregisterEvent_table (s : State) (event : String) :
    (UnregisterEvent s event).2.e = s.e := by
  unfold UnregisterEvent
  split <;> rfl

/-- The table after the first part of a teardown: unchanged, or the captured
record with its handlers dropped. -/
theorem teardownClear_table (s : State) (g : Teardown) :
    (teardownClear s g).e = s.e ∨
      ∃ eH1, s.lookup g.event = some eH1 ∧
        (teardownClear s g).e = (s.store g.event (eH1.withHandlers [])).e := by
  unfold teardownClear
  cases hg : s.e.events.lookup g.event with
  | none => exact Or.inl rfl
  | some eH1 =>
    by_cases ht : eH1.token = g.token
    · exact Or.inr ⟨eH1, hg, by simp [ht, eventHandler.withHandlers]⟩
    · exact Or.inl (by simp [ht])

/-- The first part of a teardown keeps the records and their channels. -/
theorem lookup_teardownClear (s : State) (g : Teardown) (event : String) (eH : eventHandler)
    (h : (teardownClear s g).lookup event = some eH) :
    ∃ eH0, s.lookup event = some eH0 ∧ eH.emitChan = eH0.emitChan ∧
      eH.receiveChan = eH0.receiveChan := by
  rcases teardownClear_table s g with he | ⟨eH1, h1, he⟩
  · have hl : s.lookup event = some eH := by
      simpa [State.lookup, he] using h
    exact ⟨eH, hl, rfl, rfl⟩
  · have hl : (s.store g.event (eH1.withHandlers [])).lookup event = some eH := by
      simpa [State.lookup, he] using h
    by_cases hev : event = g.event
    · subst hev
      rw [lookup_store_self] at hl
      cases hl
      exact ⟨eH1, h1, rfl, rfl⟩
    · rw [lookup_store_ne _ _ _ _ hev] at hl
      exact ⟨eH, hl, rfl, rfl⟩

/-- The end of a teardown removes its event and keeps the other records. -/
theorem lookup_teardownFinish (s : State) (g : Teardown) (event : String) :
    (teardownFinish s g).lookup event = if event = g.event then none else s.lookup event := by
  by_cases hev : event = g.event
  · subst hev
    simp [teardownFinish, State.lookup, AList.lookup_erase]
  · simp [teardownFinish, State.lookup, AList.lookup_erase_ne hev, hev]

/-- In every reachable state the channels of every record were made by
`Register`. -/
theorem Reachable_ChansMade (rt : Runtime) (s : State) (hs : Reachable rt s) : ChansMade s := by
  induction hs with
  | init =>
    intro event eH h
    simp [State.lookup, State.init, New] at h
  | @register s r event fns _ hr ih =>
    have htyped := Register_some_typed rt s event fns r hr
    intro name eH h
    cases hl : s.lookup event with
    | none =>
      obtain ⟨msg, hmsg⟩ := Register_fresh rt s event fns hl htyped
      rw [hr] at hmsg
      cases hmsg
      by_cases hn : name = event
      · subst hn
        rw [lookup_store_self] at h
        cases h
        simp
      · rw [lookup_store_ne _ _ _ _ hn] at h
        exact ih name eH h
    | some eH0 =>
      obtain ⟨msg, hmsg⟩ := Register_found rt s event fns eH0 hl htyped
      rw [hr] at hmsg
      cases hmsg
      by_cases hn : name = event
      · subst hn
        rw [lookup_store_self] at h
        cases h
        exact ih name eH0 hl
      · rw [lookup_store_ne _ _ _ _ hn] at h
        exact ih name eH h
  | @unregister s event fns _ ih =>
    intro name eH h
    cases hl : s.lookup event with
    | none =>
      rw [Unregister_missing s event fns hl] at h
      exact ih name eH h
    | some eH0 =>
      rw [Unregister_found s event fns eH0 hl] at h
      by_cases hn : name = event
      · subst hn
        rw [lookup_store_self] at h
        cases h
        exact ih name eH0 hl
      · rw [lookup_store_ne _ _ _ _ hn] at h
        exact ih name eH h
  | @unregisterEvent s event _ ih =>
    intro name eH h
    have : (UnregisterEvent s event).2.lookup name = s.lookup name := by
      simp [State.lookup, UnregisterEvent_table]
    rw [this] at h
    exact ih name eH h
  | @clear s g _ _ _ ih =>
    intro name eH h
    obtain ⟨eH0, h0, he, hrc⟩ := lookup_teardownClear s g name eH h
    rw [he, hrc]
    exact ih name eH0 h0
  | @finish s g _ _ _ ih =>
    intro name eH h
    rw [lookup_teardownFinish] at h
    split at h
    · cases h
    · exact ih name eH h

/-- The result of `Channels` on a registered event. -/
theorem Channels_found (e : Emitter) (event : String) (eH : eventHandler)
    (hfound : e.events.lookup event = some eH) :
    Channels e event = (eH.emitChan, eH.receiveChan, none) := by
  simp [Channels, eventExists, hfound]

/-- The result of `Channels` on an unknown event. -/
theorem Channels_missing (e : Emitter) (event : String) (hnew : e.events.lookup event = none) :
    Channels e event
      = (Chan.nil, Chan.nil, some ("emitter: " ++ event ++ " are not registered")) := by
  simp [Channels, eventExists, hnew]

/-- On a registered event `UnregisterEvent` returns a nil error. -/
theorem UnregisterEvent_found (s : State) (event : String) (eH : eventHandler)
    (hfound : s.lookup event = some eH) : (UnregisterEvent s event).1 = none := by
  have hl : s.e.events.lookup event = some eH := hfound
  simp [UnregisterEvent, eventExists, hl]

/-- On an unknown event `UnregisterEvent` returns the error and changes nothing. -/
theorem UnregisterEvent_missing (s : State) (event : String) (hnew : s.lookup event = none) :
    UnregisterEvent s event = (some ("emitter: " ++ event ++ " are not registered"), s) := by
  have hl : s.e.events.lookup event = none := hnew
  simp [UnregisterEvent, eventExists, hl]

/-- After a `Register` that returns, the event is stored with the returned
channels. -/
theorem Register_lookup (rt : Runtime) (s : State) (event : String) (fns : List Value)
    (r : Registered) (hr : Register rt s event fns = some r) :
    ∃ eH, r.state.lookup event = some eH ∧ eH.emitChan = r.emit ∧ eH.receiveChan = r.receive := by
  have htyped := Register_some_typed rt s event fns r hr
  cases hl : s.lookup event with
  | none =>
    obtain ⟨msg, hmsg⟩ := Register_fresh rt s event fns hl htyped
    rw [hr] at hmsg
    cases hmsg
    exact ⟨_, lookup_store_self _ _ _, rfl, rfl⟩
  | some eH0 =>
    obtain ⟨msg, hmsg⟩ := Register_found rt s event fns eH0 hl htyped
    rw [hr] at hmsg
    cases hmsg
    exact ⟨_, lookup_store_self _ _ _, rfl, rfl⟩

/-- C7: in every reachable state, `Channels`, `Unregister` and
`UnregisterEvent` return a non-nil error exactly when the event name is not
registered; in that case `Unregister` and `UnregisterEvent` leave the state as
it was and `Channels` returns nil channels; for a registered name `Channels`
returns a nil error with the emit and receive channels of the record, neither
of them nil, and these are the channels `Register` returns for that name. -/
theorem unknown_event_is_the_only_error (rt : Runtime) (s : State) (hs : Reachable rt s)
    (event : String) (fns : List Value) :
    ((Channels s.e event).2.2 ≠ none ↔ s.lookup event = none) ∧
    ((Unregister s event fns).1 ≠ none ↔ s.lookup event = none) ∧
    ((UnregisterEvent s event).1 ≠ none ↔ s.lookup event = none) ∧
    (s.lookup event = none →
      (Channels s.e event).1 = Chan.nil ∧ (Channels s.e event).2.1 = Chan.nil ∧
      (Unregister s event fns).2 = s ∧ (UnregisterEvent s event).2 = s) ∧
    (∀ eH, s.lookup event = some eH →
      Channels s.e event = (eH.emitChan, eH.receiveChan, none) ∧
      eH.emitChan ≠ Chan.nil ∧ eH.receiveChan ≠ Chan.nil) ∧
    (∀ fns2 r, Register rt s event fns2 = some r →
      Channels r.state.e event = (r.emit, r.receive, none)) := by
  have hfinal : ∀ fns2 r, Register rt s event fns2 = some r →
      Channels r.state.e event = (r.emit, r.receive, none) := by
    intro fns2 r hr
    obtain ⟨eH, hl, he, hrc⟩ := Register_lookup rt s event fns2 r hr
    rw [Channels_found r.state.e event eH hl, he, hrc]
  cases hl : s.lookup event with
  | none =>
    have hl2 : s.e.events.lookup event = none := hl
    refine ⟨?_, ?_, ?_, ?_, ?_, hfinal⟩
    · simp [Channels_missing s.e event hl2]
    · simp [Unregister_missing s event fns hl]
    · simp [UnregisterEvent_missing s event hl]
    · intro _
      simp [Channels_missing s.e event hl2, Unregister_missing s event fns hl,
        UnregisterEvent_missing s event hl]
    · intro eH h
      cases h
  | some eH0 =>
    have hl2 : s.e.events.lookup event = some eH0 := hl
    refine ⟨?_, ?_, ?_, ?_, ?_, hfinal⟩
    · simp [Channels_found s.e event eH0 hl2]
    · simp [Unregister_found s event fns eH0 hl]
    · simp [UnregisterEvent_found s event eH0 hl]
    · intro h
      cases h
    · intro eH h
      cases h
      exact ⟨Channels_found s.e event eH0 hl2, Reachable_ChansMade rt s hs event eH0 hl⟩

/-- C7, in the state reached by `New()` and `Register("EVENT")`: `Channels`
returns the two channels made for `EVENT` and a nil error, while for the
unknown name `NEW` the three operations return an error. -/
theorem unknown_event_is_the_only_error_witness :
    Reachable rt0 sampleState ∧
    Channels sampleState.e "EVENT" = (Chan.made 0, Chan.made 1, none) ∧
    (Channels sampleState.e "NEW").2.2 ≠ none ∧
    (Unregister sampleState "NEW" [param0Out0Func 10]).1 ≠ none ∧
    (UnregisterEvent sampleState "NEW").1 ≠ none := by
  have hreach : Reachable rt0 sampleState :=
    Reachable.register "EVENT" [] Reachable.init
      (r := ⟨Chan.made 0, Chan.made 1, some "emitter: ", sampleState⟩) rfl
  have hE := unknown_event_is_the_only_error rt0 sampleState hreach "EVENT" []
  have hN := unknown_event_is_the_only_error rt0 sampleState hreach "NEW" [param0Out0Func 10]
  refine ⟨hreach, ?_, hN.1.mpr (by decide), hN.2.1.mpr (by decide), hN.2.2.1.mpr (by decide)⟩
  exact (hE.2.2.2.2.1 (sampleEvent []) (by decide)).1

/-! ## The event table: Events, UnregisterEvent, one record per name -/

/-- The names `Events` returns are the keys of the map. -/
theorem Events_names (e : Emitter) : (Events e).1 = e.events.keys := by
  unfold Events
  split
  · simp
  · rename_i h
    have h0 : e.events.entries = [] := by
      simpa using h
    simp [AList.keys, List.keys, h0]

/-- C8: when `UnregisterEvent` returns with a nil error the event is still in
the table: after `New()`, `Register("EVENT")` and `UnregisterEvent("EVENT")`,
`Events` returns the one name `EVENT` with a nil error and `Channels("EVENT")`
succeeds; the name is deleted by the teardown goroutine, at its end. For every
state and name the table on return is the table before the call. -/
theorem UnregisterEvent_returns_before_delete :
    (UnregisterEvent sampleState "EVENT").1 = none ∧
    Events (UnregisterEvent sampleState "EVENT").2.e = (["EVENT"], none) ∧
    Channels (UnregisterEvent sampleState "EVENT").2.e "EVENT"
      = (Chan.made 0, Chan.made 1, none) ∧
    (UnregisterEvent sampleState "EVENT").2.goroutines
      = [{ event := "EVENT", token := 1, cleared := false }] ∧
    (Events (teardownFinish (teardownClear (UnregisterEvent sampleState "EVENT").2
        { event := "EVENT", token := 1, cleared := false })
        { event := "EVENT", token := 1, cleared := true }).e).1 = [] ∧
    (Register rt0 State.init "EVENT" []).map Registered.state = some sampleState ∧
    ∀ (s : State) (event : String), (UnregisterEvent s event).2.e = s.e :=
  ⟨by decide, by decide, by decide, by decide, by decide, rfl, UnregisterEvent_table⟩

/-- The names in the table after a `Register` that returns: the old names and
the registered one. -/
theorem Register_mem_keys (rt : Runtime) (s : State) (event : String) (fns : List Value)
    (r : Registered) (hr : Register rt s event fns = some r) (name : String) :
    name ∈ r.state.e.events.keys ↔ name = event ∨ name ∈ s.e.events.keys := by
  have htyped := Register_some_typed rt s event fns r hr
  cases hl : s.lookup event with
  | none =>
    obtain ⟨msg, hmsg⟩ := Register_fresh rt s event fns hl htyped
    rw [hr] at hmsg
    cases hmsg
    simp only [State.store]
    rw [← AList.mem_keys, AList.mem_insert, AList.mem_keys]
  | some eH0 =>
    obtain ⟨msg, hmsg⟩ := Register_found rt s event fns eH0 hl htyped
    rw [hr] at hmsg
    cases hmsg
    simp only [State.store]
    rw [← AList.mem_keys, AList.mem_insert, AList.mem_keys]

/-- Registering names without handlers always returns, and the table then holds
the old names and the registered ones. -/
theorem RegisterAll_mem_keys (rt : Runtime) (names : List String) :
    ∀ s : State, ∃ sk, RegisterAll rt s names = some sk ∧
      ∀ name, name ∈ sk.e.events.keys ↔ name ∈ names ∨ name ∈ s.e.events.keys := by
  induction names with
  | nil => intro s; exact ⟨s, rfl, by simp⟩
  | cons n ns ih =>
    intro s
    obtain ⟨r, hr, _⟩ := Register_no_handlers_returns rt s n
    obtain ⟨sk, hsk, hmem⟩ := ih r.state
    refine ⟨sk, by simp [RegisterAll, hr, hsk], ?_⟩
    intro name
    rw [hmem name, Register_mem_keys rt s n [] r hr name]
    simp only [List.mem_cons]
    tauto

/-- The number of names is the number of records. -/
theorem keys_length (e : Emitter) : e.events.keys.length = e.events.entries.length := by
  simp [AList.keys, List.keys]

/-- What `Register` does on a registered event: same names, same channels, the record
extended by the function arguments. -/
theorem Register_found_facts (rt : Runtime) (s : State) (event : String) (fns : List Value)
    (eH : eventHandler) (r : Registered) (hl : s.lookup event = some eH)
    (hr : Register rt s event fns = some r) :
    r.state.e.events.keys.Perm s.e.events.keys ∧
      r.emit = eH.emitChan ∧ r.receive = eH.receiveChan ∧
      r.state.lookup event
        = some (eH.withHandlers (eH.handlers ++ functionHandlers rt fns)) := by
  have htyped := Register_some_typed rt s event fns r hr
  obtain ⟨msg, hmsg⟩ := Register_found rt s event fns eH hl htyped
  rw [hr] at hmsg
  cases hmsg
  refine ⟨?_, rfl, rfl, lookup_store_self _ _ _⟩
  have hmem : event ∈ s.e.events.keys := by
    rw [← AList.mem_keys, ← AList.lookup_isSome]
    have hl2 : s.e.events.lookup event = some eH := hl
    simp [hl2]
  simp only [State.store, AList.keys_insert]
  exact (List.perm_cons_erase hmem).symm

/-- A record that is in the table before `Register` is there afterwards with the
same token and channels, whichever event is registered. -/
theorem Register_keeps_channels (rt : Runtime) (s : State) (event other : String)
    (fns : List Value) (eH : eventHandler) (r : Registered) (hl : s.lookup other = some eH)
    (hr : Register rt s event fns = some r) :
    ∃ eH2, r.state.lookup other = some eH2 ∧ eH2.token = eH.token ∧
      eH2.emitChan = eH.emitChan ∧ eH2.receiveChan = eH.receiveChan := by
  have htyped := Register_some_typed rt s event fns r hr
  by_cases hn : other = event
  · subst hn
    obtain ⟨_, _, _, hlk⟩ := Register_found_facts rt s other fns eH r hl hr
    exact ⟨_, hlk, rfl, rfl, rfl⟩
  · cases hle : s.lookup event with
    | none =>
      obtain ⟨msg, hmsg⟩ := Register_fresh rt s event fns hle htyped
      rw [hr] at hmsg
      cases hmsg
      exact ⟨eH, by rw [lookup_store_ne _ _ _ _ hn]; exact hl, rfl, rfl, rfl⟩
    | some eH0 =>
      obtain ⟨msg, hmsg⟩ := Register_found rt s event fns eH0 hle htyped
      rw [hr] at hmsg
      cases hmsg
      exact ⟨eH, by rw [lookup_store_ne _ _ _ _ hn]; exact hl, rfl, rfl, rfl⟩

/-- A record that is in the table before `Unregister` is there afterwards with
the same token and channels. -/
theorem Unregister_keeps_channels (s : State) (event other : String) (fns : List Value)
    (eH : eventHandler) (hl : s.lookup other = some eH) :
    ∃ eH2, (Unregister s event fns).2.lookup other = some eH2 ∧ eH2.token = eH.token ∧
      eH2.emitChan = eH.emitChan ∧ eH2.receiveChan = eH.receiveChan := by
  cases hle : s.lookup event with
  | none =>
    rw [Unregister_missing s event fns hle]
    exact ⟨eH, hl, rfl, rfl, rfl⟩
  | some eH0 =>
    rw [Unregister_found s event fns eH0 hle]
    by_cases hn : other = event
    · subst hn
      rw [hl] at hle
      cases hle
      exact ⟨_, lookup_store_self _ _ _, rfl, rfl, rfl⟩
    · exact ⟨eH, by rw [lookup_store_ne _ _ _ _ hn]; exact hl, rfl, rfl, rfl⟩

/-- C9: the table holds at most one record per name. `Register` on a
registered name adds no record: the names are the same as before, the record
keeps its handlers (the new ones are appended) and the returned channels are
those of the existing record, so a second `Register` of a name returns the pair
of the first one; no call of `Register` or `Unregister` replaces the token or
the channels of a record that is in the table. From `New()`, registering one
name twice leaves exactly that name in `Events`, and registering pairwise
distinct names leaves exactly those names, as many as were registered. -/
theorem one_record_per_name (rt : Runtime) (s : State) :
    (∀ name, s.e.events.keys.count name ≤ 1) ∧
    (∀ event fns eH r, s.lookup event = some eH → Register rt s event fns = some r →
      r.state.e.events.keys.Perm s.e.events.keys ∧
      (Events r.state.e).1.length = (Events s.e).1.length ∧
      r.emit = eH.emitChan ∧ r.receive = eH.receiveChan ∧
      r.state.lookup event
        = some (eH.withHandlers (eH.handlers ++ functionHandlers rt fns))) ∧
    (∀ event fns1 fns2 r1 r2, Register rt s event fns1 = some r1 →
      Register rt r1.state event fns2 = some r2 →
      r2.emit = r1.emit ∧ r2.receive = r1.receive ∧
      (Events r2.state.e).1.length = (Events r1.state.e).1.length) ∧
    (∀ event other fns eH, s.lookup other = some eH →
      (∀ r, Register rt s event fns = some r →
        ∃ eH2, r.state.lookup other = some eH2 ∧ eH2.token = eH.token ∧
          eH2.emitChan = eH.emitChan ∧ eH2.receiveChan = eH.receiveChan) ∧
      (∃ eH2, (Unregister s event fns).2.lookup other = some eH2 ∧ eH2.token = eH.token ∧
          eH2.emitChan = eH.emitChan ∧ eH2.receiveChan = eH.receiveChan)) ∧
    (∀ name, ∃ s2, RegisterAll rt State.init [name, name] = some s2 ∧
      (Events s2.e).1 = [name]) ∧
    (∀ names : List String, names.Nodup →
      ∃ sk, RegisterAll rt State.init names = some sk ∧
        (Events sk.e).1.Perm names ∧ (Events sk.e).1.length = names.length) := by
  have hall : ∀ names : List String, names.Nodup →
      ∃ sk, RegisterAll rt State.init names = some sk ∧ (Events sk.e).1.Perm names := by
    intro names hnd
    obtain ⟨sk, hsk, hmem⟩ := RegisterAll_mem_keys rt names State.init
    refine ⟨sk, hsk, ?_⟩
    rw [Events_names]
    refine (List.perm_ext_iff_of_nodup sk.e.events.keys_nodup hnd).mpr fun name => ?_
    rw [hmem name]
    simp [State.init, New]
  refine ⟨?_, ?_, ?_, ?_, ?_, ?_⟩
  · intro name
    exact List.nodup_iff_count_le_one.mp s.e.events.keys_nodup name
  · intro event fns eH r hl hr
    obtain ⟨hperm, he, hrc, hlk⟩ := Register_found_facts rt s event fns eH r hl hr
    exact ⟨hperm, by rw [Events_names, Events_names]; exact hperm.length_eq, he, hrc, hlk⟩
  · intro event fns1 fns2 r1 r2 hr1 hr2
    obtain ⟨eH1, hl1, he1, hrc1⟩ := Register_lookup rt s event fns1 r1 hr1
    obtain ⟨hperm, he, hrc, _⟩ := Register_found_facts rt r1.state event fns2 eH1 r2 hl1 hr2
    exact ⟨he.trans he1, hrc.trans hrc1, by
      rw [Events_names, Events_names]; exact hperm.length_eq⟩
  · intro event other fns eH hl
    exact ⟨fun r hr => Register_keeps_channels rt s event other fns eH r hl hr,
      Unregister_keeps_channels s event other fns eH hl⟩
  · intro name
    obtain ⟨s2, hs2, hmem⟩ := RegisterAll_mem_keys rt [name, name] State.init
    refine ⟨s2, hs2, ?_⟩
    rw [Events_names]
    have hperm : s2.e.events.keys.Perm [name] := by
      refine (List.perm_ext_iff_of_nodup s2.e.events.keys_nodup (List.nodup_singleton _)).mpr
        fun x => ?_
      rw [hmem x]
      simp [State.init, New]
    exact List.perm_singleton.mp hperm
  · intro names hnd
    obtain ⟨sk, hsk, hperm⟩ := hall names hnd
    exact ⟨sk, hsk, hperm, hperm.length_eq⟩

/-- C9, from `New()`: registering `EVENT`, `EVENT` leaves the single name
`EVENT`; registering `EVENT`, `NEW` leaves two names; and `Register` on the
registered `EVENT` returns the channels made at its first registration. -/
theorem one_record_per_name_witness :
    (∃ s2, RegisterAll rt0 State.init ["EVENT", "EVENT"] = some s2 ∧
      (Events s2.e).1 = ["EVENT"]) ∧
    ["EVENT", "NEW"].Nodup ∧
    (∃ sk, RegisterAll rt0 State.init ["EVENT", "NEW"] = some sk ∧
      (Events sk.e).1.Perm ["EVENT", "NEW"] ∧ (Events sk.e).1.length = 2) ∧
    sampleState.lookup "EVENT" = some (sampleEvent []) ∧
    (∀ r, Register rt0 sampleState "EVENT" [param0Out0Func 10] = some r →
      r.emit = Chan.made 0 ∧ r.receive = Chan.made 1 ∧
      (Events r.state.e).1.length = (Events sampleState.e).1.length) :=
  ⟨(one_record_per_name rt0 State.init).2.2.2.2.1 "EVENT",
   by decide,
   (one_record_per_name rt0 State.init).2.2.2.2.2 ["EVENT", "NEW"] (by decide),
   by decide,
   fun r hr =>
    have h := (one_record_per_name rt0 sampleState).2.1 "EVENT" [param0Out0Func 10]
      (sampleEvent []) r (by decide) hr
    ⟨h.2.2.1, h.2.2.2.1, h.2.1⟩⟩

/-- C10: `Events` returns a non-nil error exactly when no event is registered,
and then the name list is empty; otherwise the error is nil. In both cases the
list holds each registered name exactly once and no other name, and its length
is the number of registered events. -/
theorem Events_lists_registered_names (e : Emitter) :
    ((Events e).2 ≠ none ↔ ∀ event, e.events.lookup event = none) ∧
    ((Events e).2 ≠ none → (Events e).1 = []) ∧
    ((Events e).2 = none ↔ ∃ event, (e.events.lookup event).isSome = true) ∧
    (∀ event, (Events e).1.count event = if (e.events.lookup event).isSome then 1 else 0) ∧
    (Events e).1.length = e.events.entries.length := by
  have hnone : (∀ event, e.events.lookup event = none) ↔ e.events.entries.length = 0 := by
    constructor
    · intro h
      rw [← keys_length, List.length_eq_zero, List.eq_nil_iff_forall_not_mem]
      intro a ha
      exact (AList.lookup_eq_none.mp (h a)) (AList.mem_keys.mpr ha)
    · intro h event
      rw [AList.lookup_eq_none, AList.mem_keys]
      have : e.events.keys = [] := List.length_eq_zero.mp (by rw [keys_length]; exact h)
      simp [this]
  have herr : (Events e).2 ≠ none ↔ e.events.entries.length = 0 := by
    unfold Events
    split <;> simp_all
  refine ⟨herr.trans hnone.symm, ?_, ?_, ?_, ?_⟩
  · intro h
    rw [Events_names]
    exact List.length_eq_zero.mp (by rw [keys_length]; exact herr.mp h)
  · rw [← not_iff_not, not_exists]
    refine (herr.trans hnone.symm).trans (forall_congr' fun event => ?_)
    cases e.events.lookup event <;> simp
  · intro event
    rw [Events_names, List.count_eq_of_nodup e.events.keys_nodup]
    have : event ∈ e.events.keys ↔ (e.events.lookup event).isSome = true := by
      rw [AList.lookup_isSome, AList.mem_keys]
    by_cases hm : event ∈ e.events.keys
    · simp [hm, this.mp hm]
    · have : ¬ (e.events.lookup event).isSome = true := fun h => hm (this.mpr h)
      simp [hm, this]
  · rw [Events_names, keys_length]

/-- C10, on the empty table and on the table holding `EVENT`: the first gives
an error and no name, the second a nil error and the one name. -/
theorem Events_lists_registered_names_witness :
    ((Events New).2 ≠ none ∧ (Events New).1 = []) ∧
    Events sampleState.e = (["EVENT"], none) := by
  have h := Events_lists_registered_names New
  have hne : (Events New).2 ≠ none := h.1.mpr (fun _ => rfl)
  exact ⟨⟨hne, h.2.1 hne⟩, by decide⟩

/-! ## The matcher on variadic handlers -/

/-- A signature list built from a list of types holds exactly these types. -/
theorem toList_ofList (ts : List GoType) : (GoTypes.ofList ts).toList = ts := by
  induction ts with
  | nil => rfl
  | cons t ts ih => simp [GoTypes.ofList, GoTypes.toList, ih]

/-- A slice type differs from its element type. -/
theorem slice_ne_self (t : GoType) : GoType.slice t ≠ t := by
  intro h
  have := congrArg sizeOf h
  simp at this

/-- On a batch of typed arguments that is at least as long as the parameter
list, the loop never panics, and it answers whether every remaining position
agrees: the argument type, wrapped by `SliceOf` at the last position of a
variadic signature, equals the parameter type. -/
theorem isValidFuncForEvent_loop_spec (isVariadic : Bool) (fnIn : List GoType)
    (args : List Value) (htyped : ∀ a ∈ args, a.Type ≠ none)
    (hlen : fnIn.length ≤ args.length) :
    ∀ (k i : Nat), k + i = fnIn.length →
      ∃ b, isValidFuncForEvent_loop isVariadic fnIn args fnIn.length k i = some b ∧
        (b = true ↔ ∀ j, i ≤ j → j < fnIn.length →
          (args[j]?.bind Value.Type).map (comparedType isVariadic fnIn.length j) = fnIn[j]?) := by
  intro k
  induction k with
  | zero =>
    intro i hk
    refine ⟨true, rfl, ?_⟩
    simp only [true_iff]
    intro j h1 h2
    omega
  | succ k ih =>
    intro i hk
    have hi : i < fnIn.length := by omega
    have hia : i < args.length := by omega
    have hga : args[i]? = some args[i] := List.getElem?_eq_getElem hia
    have hgf : fnIn[i]? = some fnIn[i] := List.getElem?_eq_getElem hi
    obtain ⟨t, ht⟩ : ∃ t, args[i].Type = some t := by
      cases h : args[i].Type with
      | none => exact absurd h (htyped _ (List.getElem_mem hia))
      | some t => exact ⟨t, rfl⟩
    obtain ⟨b, hb, hiff⟩ := ih (i + 1) (by omega)
    have hstep : isValidFuncForEvent_loop isVariadic fnIn args fnIn.length (k + 1) i
        = if !decide (comparedType isVariadic fnIn.length i t = fnIn[i]) then some false
          else isValidFuncForEvent_loop isVariadic fnIn args fnIn.length k (i + 1) := by
      rw [isValidFuncForEvent_loop, hga]
      simp only [ht, hgf]
      rfl
    rw [hstep]
    have hhere : (args[i]?.bind Value.Type).map (comparedType isVariadic fnIn.length i)
        = some (comparedType isVariadic fnIn.length i t) := by
      simp [hga, ht]
    by_cases heq : comparedType isVariadic fnIn.length i t = fnIn[i]
    · refine ⟨b, by simp [heq, hb], ?_⟩
      rw [hiff]
      constructor
      · intro h j hj1 hj2
        rcases Nat.eq_or_lt_of_le hj1 with hj | hlt
        · subst hj
          rw [hhere, hgf, heq]
        · exact h j hlt hj2
      · intro h j hj1 hj2
        exact h j (by omega) hj2
    · refine ⟨false, by simp [heq], ?_⟩
      constructor
      · intro h
        cases h
      · intro h
        have := h i (Nat.le_refl _) hi
        rw [hhere, hgf] at this
        exact absurd (Option.some.inj this) heq

/-- A function value and a typed batch: the matcher never panics. When the batch
is long enough for the guard, the answer is the one of the loop. -/
theorem isValidFuncForEvent_guard (isVariadic : Bool) (ins outs : GoTypes) (d : Data)
    (args : List Value) :
    isValidFuncForEvent (.mk (.func isVariadic ins outs) d) args
      = if (!isVariadic && args.length == ins.toList.length)
            || (isVariadic && decide (args.length ≥ ins.toList.length)) then
          isValidFuncForEvent_loop isVariadic ins.toList args ins.toList.length
            ins.toList.length 0
        else some false := rfl

/-- Away from the last position the matcher compares the bare argument type. -/
theorem comparedType_of_ne (isVariadic : Bool) (n j : Nat) (h : j + 1 ≠ n) :
    comparedType isVariadic n j = fun t => t := by
  funext t
  simp [comparedType, h]

/-- At the last position of a variadic signature the matcher compares the
wrapped argument type. -/
theorem comparedType_last (n j : Nat) (h : j + 1 = n) : comparedType true n j = SliceOf := by
  funext t
  simp [comparedType, h]

/-- The positions of a variadic signature, read one by one: the fixed ones
compare the bare argument type, the last one the wrapped type. -/
theorem variadic_positions (fixed : List GoType) (vt : GoType) (args : List Value) :
    (∀ j, 0 ≤ j → j < (fixed ++ [vt]).length →
      (args[j]?.bind Value.Type).map (comparedType true (fixed ++ [vt]).length j)
        = (fixed ++ [vt])[j]?) ↔
    ((∀ i, i < fixed.length → args[i]?.bind Value.Type = fixed[i]?) ∧
      (args[fixed.length]?.bind Value.Type).map SliceOf = some vt) := by
  have hn : (fixed ++ [vt]).length = fixed.length + 1 := by simp
  have hlast : (fixed ++ [vt])[fixed.length]? = some vt := by
    simp [List.getElem?_append_right]
  have hfixed : ∀ j, j < fixed.length →
      comparedType true (fixed ++ [vt]).length j = fun t => t := fun j hj =>
    comparedType_of_ne true _ j (by omega)
  have hvariadic : comparedType true (fixed ++ [vt]).length fixed.length = SliceOf :=
    comparedType_last _ _ (by omega)
  constructor
  · intro h
    constructor
    · intro i hi
      have := h i (Nat.zero_le _) (by omega)
      rw [List.getElem?_append_left hi, hfixed i hi] at this
      simpa using this
    · have := h fixed.length (Nat.zero_le _) (by omega)
      rw [hlast, hvariadic] at this
      exact this
  · rintro ⟨hfix, hvar⟩ j _ hj
    rcases Nat.lt_or_ge j fixed.length with hlt | hge
    · rw [List.getElem?_append_left hlt, hfixed j hlt]
      simpa using hfix j hlt
    · have hj2 : j = fixed.length := by omega
      subst hj2
      rw [hlast, hvariadic]
      exact hvar

/-- C11, as stated, fails: the variadic handler `func(xs ...int)` has no fixed
parameter, so the empty batch has at least as many arguments as fixed
parameters, matches them all and has no argument at the variadic position; yet
the matcher answers false. The same holds for `func(s string, xs ...int)` and
the batch `["a"]`. -/
theorem variadic_empty_tail_is_rejected :
    isValidFuncForEvent (variadicIntFunc 0) [] = some false ∧
    isValidFuncForEvent (stringVariadicIntFunc 0) [strA] = some false ∧
    ¬ (isValidFuncForEvent (variadicIntFunc 0) [] = some true ↔
        (0 ≤ ([] : List Value).length ∧
          (∀ i, i < 0 → ([] : List Value)[i]?.bind Value.Type = ([] : List GoType)[i]?) ∧
          (∀ a, ([] : List Value)[0]? = some a →
            a.Type.map SliceOf = some (GoType.slice GoType.int)))) := by
  refine ⟨by decide, by decide, ?_⟩
  intro h
  have hfalse : isValidFuncForEvent (variadicIntFunc 0) [] = some false := by decide
  have htrue := h.mpr ⟨Nat.le_refl _, fun i hi => absurd hi (Nat.not_lt_zero i),
    fun a ha => by simp at ha⟩
  rw [hfalse] at htrue
  cases htrue

/-- The matcher on a variadic handler and a typed batch that reaches the
variadic position: it accepts exactly when the first arguments have the fixed
parameter types and the argument at the variadic position has a type that
`SliceOf` turns into the declared variadic type. -/
theorem variadic_matcher_long_enough (fixed : List GoType) (vt : GoType) (outs : GoTypes)
    (d : Data) (args : List Value) (htyped : ∀ a ∈ args, a.Type ≠ none)
    (hlen : fixed.length + 1 ≤ args.length) :
    ∃ b, isValidFuncForEvent (.mk (.func true (GoTypes.ofList (fixed ++ [vt])) outs) d) args
        = some b ∧
      (b = true ↔
        (∀ i, i < fixed.length → args[i]?.bind Value.Type = fixed[i]?) ∧
        (args[fixed.length]?.bind Value.Type).map SliceOf = some vt) := by
  have hn : (fixed ++ [vt]).length = fixed.length + 1 := by simp
  obtain ⟨b, hb, hiff⟩ := isValidFuncForEvent_loop_spec true (fixed ++ [vt]) args htyped
    (by omega) (fixed ++ [vt]).length 0 (by omega)
  have hg : decide (args.length ≥ (fixed ++ [vt]).length) = true := by
    simp only [decide_eq_true_eq]; omega
  refine ⟨b, ?_, ?_⟩
  · rw [isValidFuncForEvent_guard, toList_ofList, hb, hg]
    rfl
  · rw [hiff, variadic_positions]

/-- C11, amended: for a variadic handler with the fixed parameter types `fixed`
followed by a variadic parameter of declared type `vt`, and a batch of typed
arguments, `isValidFuncForEvent` returns (without panicking) a boolean that is
true exactly when the batch has at least one argument more than there are fixed
parameters, the types of its first arguments are the fixed parameter types, and
the slice-of the type of the argument at the variadic position is `vt`; a batch
with exactly as many arguments as there are fixed parameters is rejected. -/
theorem isValidFuncForEvent_variadic_exact (fixed : List GoType) (vt : GoType) (outs : GoTypes)
    (d : Data) (args : List Value) (htyped : ∀ a ∈ args, a.Type ≠ none) :
    ∃ b, isValidFuncForEvent (.mk (.func true (GoTypes.ofList (fixed ++ [vt])) outs) d) args
        = some b ∧
      (b = true ↔ fixed.length + 1 ≤ args.length ∧
        (∀ i, i < fixed.length → args[i]?.bind Value.Type = fixed[i]?) ∧
        (args[fixed.length]?.bind Value.Type).map SliceOf = some vt) ∧
      (args.length = fixed.length → b = false) := by
  have hn : (fixed ++ [vt]).length = fixed.length + 1 := by simp
  by_cases hlen : fixed.length + 1 ≤ args.length
  · obtain ⟨b, hb, hiff⟩ := variadic_matcher_long_enough fixed vt outs d args htyped hlen
    refine ⟨b, hb, ?_, ?_⟩
    · rw [hiff]
      exact ⟨fun h => ⟨hlen, h⟩, fun h => h.2⟩
    · intro h
      omega
  · refine ⟨false, ?_, ?_, ?_⟩
    · have hg : decide (args.length ≥ (fixed ++ [vt]).length) = false := by
        simp only [decide_eq_false_iff_not]; omega
      rw [isValidFuncForEvent_guard, toList_ofList, hg]
      rfl
    · simp [hlen]
    · intro _
      rfl

/-- C11, amended, at `func(s string, xs ...int)`: the batch `["a", 1]` is typed
and is accepted, as is `["a", 1, 2]`; the batch `["a"]` is rejected. -/
theorem isValidFuncForEvent_variadic_exact_witness :
    (∀ a ∈ [strA, one], a.Type ≠ none) ∧
    (∃ b, isValidFuncForEvent
        (.mk (.func true (GoTypes.ofList ([GoType.string] ++ [GoType.slice GoType.int])) .nil)
          (.addr 0)) [strA, one] = some b ∧
      (b = true ↔ [GoType.string].length + 1 ≤ [strA, one].length ∧
        (∀ i, i < [GoType.string].length →
          [strA, one][i]?.bind Value.Type = [GoType.string][i]?) ∧
        ([strA, one][[GoType.string].length]?.bind Value.Type).map SliceOf
          = some (GoType.slice GoType.int)) ∧
      ([strA, one].length = [GoType.string].length → b = false)) ∧
    isValidFuncForEvent (stringVariadicIntFunc 0) [strA, one] = some true ∧
    isValidFuncForEvent (stringVariadicIntFunc 0) [strA, one, one] = some true ∧
    isValidFuncForEvent (stringVariadicIntFunc 0) [strA] = some false :=
  ⟨by decide,
   isValidFuncForEvent_variadic_exact [GoType.string] (GoType.slice GoType.int) .nil (.addr 0)
     [strA, one] (by decide),
   by decide, by decide, by decide⟩

/-- C12, as stated, fails on `func(xs ...int)`: the batch holding one value of
type `[]int` is rejected, and the batch holding the bare int `1` is accepted. -/
theorem variadic_prepackaged_tail_is_rejected :
    isValidFuncForEvent (variadicIntFunc 0) [intSlice 5] = some false ∧
    isValidFuncForEvent (variadicIntFunc 0) [one] = some true ∧
    isValidFuncForEvent (stringVariadicIntFunc 0) [strA, intSlice 5] = some false ∧
    isValidFuncForEvent (stringVariadicIntFunc 0) [strA, one] = some true := by
  refine ⟨by decide, by decide, by decide, by decide⟩

/-- C12, amended: for a variadic handler whose variadic parameter has element
type `T` (declared type `[]T`) and a typed batch that reaches the variadic
position and matches the fixed parameters, the matcher accepts the batch
exactly when the argument at the variadic position is a bare value of type
`T`; in particular a batch whose argument at that position is one value of type
`[]T` is rejected. -/
theorem isValidFuncForEvent_variadic_bare_element (fixed : List GoType) (T : GoType)
    (outs : GoTypes) (d : Data) (args : List Value) (htyped : ∀ a ∈ args, a.Type ≠ none)
    (hlen : fixed.length + 1 ≤ args.length)
    (hfixed : ∀ i, i < fixed.length → args[i]?.bind Value.Type = fixed[i]?) :
    ∃ b, isValidFuncForEvent
        (.mk (.func true (GoTypes.ofList (fixed ++ [GoType.slice T])) outs) d) args = some b ∧
      (b = true ↔ args[fixed.length]?.bind Value.Type = some T) ∧
      (args[fixed.length]?.bind Value.Type = some (GoType.slice T) → b = false) := by
  obtain ⟨b, hb, hiff⟩ :=
    variadic_matcher_long_enough fixed (GoType.slice T) outs d args htyped hlen
  have hT : b = true ↔ args[fixed.length]?.bind Value.Type = some T := by
    rw [hiff]
    constructor
    · rintro ⟨_, h⟩
      cases hx : args[fixed.length]?.bind Value.Type with
      | none => simp [hx] at h
      | some t =>
        rw [hx] at h
        simp only [Option.map_some', SliceOf, Option.some.injEq, GoType.slice.injEq] at h
        rw [h]
    · intro h
      exact ⟨hfixed, by rw [h]; rfl⟩
  refine ⟨b, hb, hT, ?_⟩
  intro h
  cases hbv : b with
  | false => rfl
  | true =>
    have := hT.mp hbv
    rw [h] at this
    exact absurd (Option.some.inj this) (slice_ne_self T)

/-- C12, amended, at `func(s string, xs ...int)`: the batch `["a", 1]` matches
the fixed parameter and is accepted, its argument at the variadic position
being a bare int; the batch `["a", []int]` is rejected. -/
theorem isValidFuncForEvent_variadic_bare_element_witness :
    (∀ a ∈ [strA, one], a.Type ≠ none) ∧
    [GoType.string].length + 1 ≤ [strA, one].length ∧
    (∀ i, i < [GoType.string].length →
      [strA, one][i]?.bind Value.Type = [GoType.string][i]?) ∧
    (∃ b, isValidFuncForEvent
        (.mk (.func true (GoTypes.ofList ([GoType.string] ++ [GoType.slice GoType.int])) .nil)
          (.addr 0)) [strA, one] = some b ∧
      (b = true ↔ [strA, one][[GoType.string].length]?.bind Value.Type = some GoType.int) ∧
      ([strA, one][[GoType.string].length]?.bind Value.Type = some (GoType.slice GoType.int) →
        b = false)) ∧
    isValidFuncForEvent (stringVariadicIntFunc 0) [strA, intSlice 5] = some false := by
  have hfixed : ∀ i, i < [GoType.string].length →
      [strA, one][i]?.bind Value.Type = [GoType.string][i]? := by
    intro i hi
    have hi0 : i = 0 := by
      simp only [List.length_singleton] at hi
      omega
    subst hi0
    rfl
  exact ⟨by decide, by decide, hfixed,
    isValidFuncForEvent_variadic_bare_element [GoType.string] GoType.int .nil (.addr 0)
      [strA, one] (by decide) (by decide) hfixed,
    by decide⟩

/-- C13: a nil value in a batch makes the matcher panic. The dispatch loop turns
nil into the zero `reflect.Value`, and `args[i].Type()` panics on it: for the
handler `func(int)` and the batch `[nil]`, for `func(xs ...int)` and `[nil]`,
and for `func(s string, xs ...int)` and `["a", nil]`; the dispatch of such a
batch panics with it. A nil that the loop does not reach is harmless. -/
theorem isValidFuncForEvent_panics_on_nil :
    isValidFuncForEvent (param1Out0Func 0) ([Value.nil].map ValueOf) = none ∧
    isValidFuncForEvent (variadicIntFunc 0) ([Value.nil].map ValueOf) = none ∧
    isValidFuncForEvent (stringVariadicIntFunc 0) ([strA, Value.nil].map ValueOf) = none ∧
    (∀ sched : Schedule,
      listen_batch CallSample sched (sampleEvent [{ name := "g", fn := param1Out0Func 0 }])
        [Value.nil] = none) ∧
    isValidFuncForEvent (param1Out0Func 0) ([Value.nil, one].map ValueOf) = some false ∧
    isValidFuncForEvent (variadicIntFunc 0) ([one, Value.nil].map ValueOf) = some true := by
  refine ⟨by decide, by decide, by decide, fun _ => rfl, by decide, by decide⟩

/-- A function value and a batch without nil values: the matcher returns a
boolean, so it does not panic and reads no argument out of range. -/
theorem isValidFuncForEvent_total_on_typed (isVariadic : Bool) (ins outs : GoTypes) (d : Data)
    (args : List Value) (htyped : ∀ a ∈ args, a.Type ≠ none) :
    ∃ b, isValidFuncForEvent (.mk (.func isVariadic ins outs) d) args = some b := by
  rw [isValidFuncForEvent_guard]
  split
  · rename_i hg
    have hlen : ins.toList.length ≤ args.length := by
      cases isVariadic <;> simp at hg <;> omega
    obtain ⟨b, hb, _⟩ := isValidFuncForEvent_loop_spec isVariadic ins.toList args htyped hlen
      ins.toList.length 0 (by omega)
    exact ⟨b, hb⟩
  · exact ⟨false, rfl⟩

/-- The loop reads only the arguments before position `n` when it stops there. -/
theorem isValidFuncForEvent_loop_take (isVariadic : Bool) (fnIn : List GoType)
    (args : List Value) (m n : Nat) :
    ∀ (k i : Nat), k + i ≤ n →
      isValidFuncForEvent_loop isVariadic fnIn args m k i
        = isValidFuncForEvent_loop isVariadic fnIn (args.take n) m k i := by
  intro k
  induction k with
  | zero => intro i _; rfl
  | succ k ih =>
    intro i hk
    have hi : i < n := by omega
    have hget : (args.take n)[i]? = args[i]? := by
      rw [List.getElem?_take, if_pos hi]
    rw [isValidFuncForEvent_loop, isValidFuncForEvent_loop, hget, ih (i + 1) (by omega)]

/-- C17: a nil argument makes `Register` panic. `reflect.TypeOf(nil)` is the nil
Type and its `Kind()` cannot be called: `Register("EVENT", nil)` panics, and so
does a call whose nil argument stands between two functions, which are then not
registered and for which no error is returned. -/
theorem Register_panics_on_nil_argument :
    Register rt0 State.init "EVENT" [Value.nil] = none ∧
    Register rt0 State.init "EVENT" [param0Out0Func 10, Value.nil, param1Out0Func 20] = none ∧
    Register rt0 sampleState "EVENT" [one, Value.nil] = none ∧
    (Register rt0 State.init "EVENT" [param0Out0Func 10, one, param1Out0Func 20]).isSome
      = true :=
  ⟨rfl, rfl, rfl, rfl⟩

/-- C18: for a variadic handler with `n` declared parameters and two batches
that have at least `n` arguments and agree on their first `n` arguments, the
matcher gives the same answer; on a batch without nil values that answer is a
boolean. So `func(xs ...int)` is reported as matching `[1, "a"]`, as it is for
`[1]`. -/
theorem isValidFuncForEvent_variadic_ignores_tail (ins outs : GoTypes) (d : Data)
    (args1 args2 : List Value) (hlen1 : ins.toList.length ≤ args1.length)
    (hlen2 : ins.toList.length ≤ args2.length)
    (hsame : args1.take ins.toList.length = args2.take ins.toList.length) :
    isValidFuncForEvent (.mk (.func true ins outs) d) args1
        = isValidFuncForEvent (.mk (.func true ins outs) d) args2 ∧
      ((∀ a ∈ args1, a.Type ≠ none) →
        ∃ b, isValidFuncForEvent (.mk (.func true ins outs) d) args1 = some b) := by
  refine ⟨?_, isValidFuncForEvent_total_on_typed true ins outs d args1⟩
  have hg1 : decide (args1.length ≥ ins.toList.length) = true := by
    simp only [decide_eq_true_eq]; omega
  have hg2 : decide (args2.length ≥ ins.toList.length) = true := by
    simp only [decide_eq_true_eq]; omega
  rw [isValidFuncForEvent_guard, isValidFuncForEvent_guard, hg1, hg2]
  simp only [Bool.not_true, Bool.false_and, Bool.and_self, Bool.or_true, if_true]
  rw [isValidFuncForEvent_loop_take true ins.toList args1 _ ins.toList.length _ 0 (by omega),
    isValidFuncForEvent_loop_take true ins.toList args2 _ ins.toList.length _ 0 (by omega), hsame]

/-- C18, at `func(xs ...int)` and the batches `[1, "a"]` and `[1]`: both have at
least one argument and the same first argument, and both are accepted. -/
theorem isValidFuncForEvent_variadic_ignores_tail_witness :
    (GoTypes.cons (GoType.slice GoType.int) .nil).toList.length ≤ [one, strA].length ∧
    (GoTypes.cons (GoType.slice GoType.int) .nil).toList.length ≤ [one].length ∧
    [one, strA].take (GoTypes.cons (GoType.slice GoType.int) .nil).toList.length
      = [one].take (GoTypes.cons (GoType.slice GoType.int) .nil).toList.length ∧
    isValidFuncForEvent (variadicIntFunc 0) [one, strA]
      = isValidFuncForEvent (variadicIntFunc 0) [one] ∧
    isValidFuncForEvent (variadicIntFunc 0) [one, strA] = some true :=
  ⟨by decide, by decide, by decide,
   (isValidFuncForEvent_variadic_ignores_tail (.cons (GoType.slice GoType.int) .nil) .nil
     (.addr 0) [one, strA] [one] (by decide) (by decide) (by decide)).1,
   by decide⟩

/-! ## The handler slice under Unregister -/

/-- The builtin `copy` leaves the length of the backing array as it is. -/
theorem copy_length {α : Type} (s : List α) (dstOff srcOff : Nat) :
    (copy s dstOff srcOff).length = s.length := by
  simp only [copy, List.length_append, List.length_take, List.length_drop]
  omega

/-- The builtin `copy` writes only elements that were in the array. -/
theorem copy_subset {α : Type} (s : List α) (dstOff srcOff : Nat) :
    ∀ x ∈ copy s dstOff srcOff, x ∈ s := by
  intro x hx
  simp only [copy, List.mem_append] at hx
  rcases hx with (hx | hx) | hx
  · exact List.mem_of_mem_take hx
  · exact List.mem_of_mem_drop (List.mem_of_mem_take hx)
  · exact List.mem_of_mem_drop hx

/-- The shifts of `Unregister` keep the length of the handler slice. -/
theorem foldl_copy_length (iSlice : List Nat) :
    ∀ hs : List handler,
      (iSlice.foldl (fun hs iToRemove => copy hs iToRemove (iToRemove + 1)) hs).length
        = hs.length := by
  induction iSlice with
  | nil => intro hs; rfl
  | cons i is ih => intro hs; rw [List.foldl_cons, ih, copy_length]

/-- The shifts of `Unregister` bring in no handler from outside. -/
theorem foldl_copy_subset (iSlice : List Nat) :
    ∀ hs : List handler,
      ∀ h ∈ iSlice.foldl (fun hs iToRemove => copy hs iToRemove (iToRemove + 1)) hs, h ∈ hs := by
  induction iSlice with
  | nil => intro hs h hh; exact hh
  | cons i is ih =>
    intro hs h hh
    rw [List.foldl_cons] at hh
    exact copy_subset hs i (i + 1) h (ih _ h hh)

/-- The index loop finds one position per handler equal to `v`. -/
theorem Unregister_indices_length (v : Value) (hs : List handler) :
    ∀ i, (Unregister_indices v hs i).length = hs.countP (fun h => decide (h.fn = v)) := by
  induction hs with
  | nil => intro i; rfl
  | cons h hs ih =>
    intro i
    by_cases hv : h.fn = v
    · simp [Unregister_indices, hv, ih]
    · simp [Unregister_indices, hv, ih]

/-- One turn of the `Unregister` loop shortens the slice by the number of
handlers equal to the argument. -/
theorem Unregister_one_length (hs : List handler) (fn : Value) :
    (Unregister_one hs fn).length
      = hs.length - hs.countP (fun h => decide (h.fn = ValueOf fn)) := by
  have hcount := Unregister_indices_length (ValueOf fn) hs 0
  have hle : hs.countP (fun h => decide (h.fn = ValueOf fn)) ≤ hs.length := List.countP_le_length _
  unfold Unregister_one
  simp only
  split
  · rw [List.length_take, foldl_copy_length, hcount]
    omega
  · rename_i h0
    have : hs.countP (fun h => decide (h.fn = ValueOf fn)) = 0 := by omega
    omega

/-- One turn of the `Unregister` loop keeps only handlers that were registered. -/
theorem Unregister_one_subset (hs : List handler) (fn : Value) :
    ∀ h ∈ Unregister_one hs fn, h ∈ hs := by
  intro h hh
  unfold Unregister_one at hh
  simp only at hh
  split at hh
  · exact foldl_copy_subset _ hs h (List.mem_of_mem_take hh)
  · exact hh

/-- The index loop over two pieces of the slice. -/
theorem Unregister_indices_append (v : Value) (xs ys : List handler) :
    ∀ i, Unregister_indices v (xs ++ ys) i
      = Unregister_indices v xs i ++ Unregister_indices v ys (i + xs.length) := by
  induction xs with
  | nil => intro i; simp [Unregister_indices]
  | cons x xs ih =>
    intro i
    have harith : i + 1 + xs.length = i + (xs.length + 1) := by omega
    by_cases hv : x.fn = v
    · simp [Unregister_indices, hv, ih, harith]
    · simp [Unregister_indices, hv, ih, harith]

/-- The index loop finds nothing where no handler equals `v`. -/
theorem Unregister_indices_no_match (v : Value) (xs : List handler)
    (hno : ∀ x ∈ xs, x.fn ≠ v) : ∀ i, Unregister_indices v xs i = [] := by
  induction xs with
  | nil => intro i; rfl
  | cons x xs ih =>
    intro i
    have hx : x.fn ≠ v := hno x (List.mem_cons_self _ _)
    simp [Unregister_indices, hx, ih (fun y hy => hno y (List.mem_cons_of_mem _ hy))]

/-- A slice with at most one handler equal to `v` has none, or splits around
the one it has. -/
theorem at_most_one_split (v : Value) (hs : List handler)
    (honce : hs.countP (fun h => decide (h.fn = v)) ≤ 1) :
    (∀ x ∈ hs, x.fn ≠ v) ∨
      ∃ pre h post, hs = pre ++ h :: post ∧ h.fn = v ∧
        (∀ x ∈ pre, x.fn ≠ v) ∧ (∀ x ∈ post, x.fn ≠ v) := by
  induction hs with
  | nil => exact Or.inl (fun x hx => by cases hx)
  | cons h hs ih =>
    by_cases hv : h.fn = v
    · right
      have hnone : ∀ x ∈ hs, x.fn ≠ v := by
        simpa [List.countP_cons, hv] using honce
      exact ⟨[], h, hs, rfl, hv, fun x hx => absurd hx (List.not_mem_nil x), hnone⟩
    · have hle : hs.countP (fun h => decide (h.fn = v)) ≤ 1 := by
        simpa [List.countP_cons, hv] using honce
      rcases ih hle with hnone | ⟨pre, h1, post, heq, hv1, hpre, hpost⟩
      · left
        intro x hx
        rcases List.mem_cons.mp hx with rfl | hx
        · exact hv
        · exact hnone x hx
      · right
        refine ⟨h :: pre, h1, post, by rw [heq]; rfl, hv1, ?_, hpost⟩
        intro x hx
        rcases List.mem_cons.mp hx with rfl | hx
        · exact hv
        · exact hpre x hx

/-- One turn of the `Unregister` loop on a slice without the argument. -/
theorem Unregister_one_no_match (hs : List handler) (fn : Value)
    (hno : ∀ x ∈ hs, x.fn ≠ ValueOf fn) : Unregister_one hs fn = hs := by
  simp [Unregister_one, Unregister_indices_no_match (ValueOf fn) hs hno 0]

/-- One turn of the `Unregister` loop on a slice holding the argument once. -/
theorem Unregister_one_single (pre post : List handler) (h : handler) (fn : Value)
    (hv : h.fn = ValueOf fn) (hpre : ∀ x ∈ pre, x.fn ≠ ValueOf fn)
    (hpost : ∀ x ∈ post, x.fn ≠ ValueOf fn) :
    Unregister_one (pre ++ h :: post) fn = pre ++ post := by
  have hidx : Unregister_indices (ValueOf fn) (pre ++ h :: post) 0 = [pre.length] := by
    rw [Unregister_indices_append, Unregister_indices_no_match _ pre hpre]
    simp [Unregister_indices, hv, Unregister_indices_no_match _ post hpost]
  have hcopy : copy (pre ++ h :: post) pre.length (pre.length + 1)
      = pre ++ post ++ (pre ++ h :: post).drop (pre.length + post.length) := by
    simp [copy]
  simp only [Unregister_one, hidx, List.length_singleton, List.foldl_cons, List.foldl_nil, hcopy]
  have hlen : (pre ++ post ++ (pre ++ h :: post).drop (pre.length + post.length)).length - 1
      = (pre ++ post).length := by
    simp
  rw [if_pos (by decide), hlen, List.take_left']
  rfl

/-- C14: on a registered event whose handlers hold the callable `f` at most once,
`Unregister(event, f)` returns a nil error and leaves the handler sequence with
that single occurrence erased, the other entries in their order; when `f` is
not among the handlers the record is unchanged. -/
theorem Unregister_single_occurrence (s : State) (event : String) (eH : eventHandler)
    (f : Value) (hl : s.lookup event = some eH)
    (honce : eH.handlers.countP (fun h => decide (h.fn = ValueOf f)) ≤ 1) :
    (Unregister s event [f]).1 = none ∧
    (Unregister s event [f]).2.lookup event
      = some (eH.withHandlers (eH.handlers.eraseP (fun h => decide (h.fn = ValueOf f)))) ∧
    eH.handlers.eraseP (fun h => decide (h.fn = ValueOf f))
      = eH.handlers.filter (fun h => decide (h.fn ≠ ValueOf f)) ∧
    ((∀ h ∈ eH.handlers, h.fn ≠ ValueOf f) →
      (Unregister s event [f]).2.lookup event = some eH) := by
  rw [Unregister_found s event [f] eH hl]
  simp only [List.foldl_cons, List.foldl_nil, lookup_store_self]
  rcases at_most_one_split (ValueOf f) eH.handlers honce with
    hnone | ⟨pre, h, post, heq, hv, hpre, hpost⟩
  · have herase : eH.handlers.eraseP (fun h => decide (h.fn = ValueOf f)) = eH.handlers :=
      List.eraseP_of_forall_not (fun a ha => by simpa using hnone a ha)
    have hfilter : eH.handlers.filter (fun h => decide (h.fn ≠ ValueOf f)) = eH.handlers :=
      List.filter_eq_self.mpr (fun a ha => by simpa using hnone a ha)
    rw [Unregister_one_no_match eH.handlers f hnone, herase, hfilter]
    exact ⟨trivial, rfl, rfl, fun _ => rfl⟩
  · have hpre2 : ∀ b ∈ pre, ¬ decide (b.fn = ValueOf f) = true := fun b hb => by
      simpa using hpre b hb
    have herase : eH.handlers.eraseP (fun h => decide (h.fn = ValueOf f)) = pre ++ post := by
      rw [heq, List.eraseP_append_right _ hpre2, List.eraseP_cons_of_pos (by simpa using hv)]
    have hfilter : eH.handlers.filter (fun h => decide (h.fn ≠ ValueOf f)) = pre ++ post := by
      rw [heq, List.filter_append, List.filter_cons_of_neg (by simpa using hv),
        List.filter_eq_self.mpr (fun a ha => by simpa using hpre a ha),
        List.filter_eq_self.mpr (fun a ha => by simpa using hpost a ha)]
    have hone : Unregister_one eH.handlers f = pre ++ post := by
      rw [heq]
      exact Unregister_one_single pre post h f hv hpre hpost
    rw [hone, herase, hfilter]
    refine ⟨trivial, rfl, rfl, fun hall => ?_⟩
    exact absurd hv (hall h (by rw [heq]; simp))

/-- C14, on the registry `[g, f, k]`: `f` occurs once and `Unregister(EVENT, f)`
leaves `[g, k]`; on the registry `[g, k]` it leaves `[g, k]`. -/
theorem Unregister_single_occurrence_witness :
    (stateWith [handlerG, handlerF, handlerK]).lookup "EVENT"
      = some (sampleEvent [handlerG, handlerF, handlerK]) ∧
    [handlerG, handlerF, handlerK].countP (fun h => decide (h.fn = ValueOf (param0Out0Func 10)))
      ≤ 1 ∧
    ((Unregister (stateWith [handlerG, handlerF, handlerK]) "EVENT"
        [param0Out0Func 10]).2.lookup "EVENT").map eventHandler.handlers
      = some [handlerG, handlerK] ∧
    ((Unregister (stateWith [handlerG, handlerK]) "EVENT"
        [param0Out0Func 10]).2.lookup "EVENT").map eventHandler.handlers
      = some [handlerG, handlerK] ∧
    (Register rt0 State.init "EVENT" [param1Out0Func 20, param0Out0Func 10, param1Out1Func 30]).map
        Registered.state
      = some (stateWith [handlerG, handlerF, handlerK]) := by
  refine ⟨by decide, by decide, ?_, by decide, rfl⟩
  have h := (Unregister_single_occurrence (stateWith [handlerG, handlerF, handlerK])
    "EVENT" (sampleEvent [handlerG, handlerF, handlerK])
    (param0Out0Func 10) (by decide) (by decide)).2.1
  rw [h]
  decide

/-- C19: on a registered event, `Unregister(event, f)` shortens the handler
sequence by exactly the number of entries whose callable equals `f`, a number
that never exceeds the length, and every entry it leaves was an entry of the
sequence before. -/
theorem Unregister_shortens_by_match_count (s : State) (event : String) (eH : eventHandler)
    (f : Value) (hl : s.lookup event = some eH) :
    ∃ eH2, (Unregister s event [f]).2.lookup event = some eH2 ∧
      eH2.handlers.length + eH.handlers.countP (fun h => decide (h.fn = ValueOf f))
        = eH.handlers.length ∧
      eH2.handlers.length
        = eH.handlers.length - eH.handlers.countP (fun h => decide (h.fn = ValueOf f)) ∧
      eH.handlers.countP (fun h => decide (h.fn = ValueOf f)) ≤ eH.handlers.length ∧
      ∀ h ∈ eH2.handlers, h ∈ eH.handlers := by
  have hlen := Unregister_one_length eH.handlers f
  have hle : eH.handlers.countP (fun h => decide (h.fn = ValueOf f)) ≤ eH.handlers.length :=
    List.countP_le_length _
  refine ⟨eH.withHandlers (Unregister_one eH.handlers f), ?_, ?_, hlen, hle,
    Unregister_one_subset eH.handlers f⟩
  · rw [Unregister_found s event [f] eH hl]
    simp only [List.foldl_cons, List.foldl_nil, lookup_store_self]
  · show (Unregister_one eH.handlers f).length + _ = _
    omega

/-- C19, on the registry `[f, f, g]`: two entries equal `f`, and
`Unregister(EVENT, f)` leaves a sequence of length one. -/
theorem Unregister_shortens_by_match_count_witness :
    (stateWith [handlerF, handlerF, handlerG]).lookup "EVENT"
      = some (sampleEvent [handlerF, handlerF, handlerG]) ∧
    ∃ eH2, (Unregister (stateWith [handlerF, handlerF, handlerG]) "EVENT"
        [param0Out0Func 10]).2.lookup "EVENT" = some eH2 ∧
      eH2.handlers.length = 1 ∧ ∀ h ∈ eH2.handlers, h ∈ [handlerF, handlerF, handlerG] := by
  refine ⟨by decide, ?_⟩
  obtain ⟨eH2, h1, _, h3, _, h5⟩ := Unregister_shortens_by_match_count
    (stateWith [handlerF, handlerF, handlerG]) "EVENT"
    (sampleEvent [handlerF, handlerF, handlerG]) (param0Out0Func 10) (by decide)
  exact ⟨eH2, h1, h3.trans (by decide), h5⟩

/-- The names in the table are the same before and after `Unregister`. -/
theorem Unregister_keys_perm (s : State) (event : String) (fns : List Value) :
    (Unregister s event fns).2.e.events.keys.Perm s.e.events.keys := by
  cases hl : s.lookup event with
  | none =>
    rw [Unregister_missing s event fns hl]
  | some eH =>
    rw [Unregister_found s event fns eH hl]
    have hmem : event ∈ s.e.events.keys := by
      rw [← AList.mem_keys, ← AList.lookup_isSome]
      have hl2 : s.e.events.lookup event = some eH := hl
      simp [hl2]
    simp only [State.store, AList.keys_insert]
    exact (List.perm_cons_erase hmem).symm

/-- C15: `Register` and `Unregister` on the event `event` leave every other
event as it was: the record stored under another name (its handler sequence,
its token and its channels) is the same before and after the call. `Unregister`
also leaves the set of registered names as it was. -/
theorem other_events_untouched (rt : Runtime) (s : State) (event other : String)
    (fns : List Value) (hne : other ≠ event) :
    (∀ r, Register rt s event fns = some r → r.state.lookup other = s.lookup other) ∧
    (Unregister s event fns).2.lookup other = s.lookup other ∧
    (Unregister s event fns).2.e.events.keys.Perm s.e.events.keys ∧
    (∀ name, name ∈ (Unregister s event fns).2.e.events.keys ↔ name ∈ s.e.events.keys) := by
  refine ⟨?_, ?_, Unregister_keys_perm s event fns,
    fun name => (Unregister_keys_perm s event fns).mem_iff⟩
  · intro r hr
    have htyped := Register_some_typed rt s event fns r hr
    cases hl : s.lookup event with
    | none =>
      obtain ⟨msg, hmsg⟩ := Register_fresh rt s event fns hl htyped
      rw [hr] at hmsg
      cases hmsg
      rw [lookup_store_ne _ _ _ _ hne]
      rfl
    | some eH =>
      obtain ⟨msg, hmsg⟩ := Register_found rt s event fns eH hl htyped
      rw [hr] at hmsg
      cases hmsg
      exact lookup_store_ne _ _ _ _ hne
  · cases hl : s.lookup event with
    | none => rw [Unregister_missing s event fns hl]
    | some eH =>
      rw [Unregister_found s event fns eH hl]
      exact lookup_store_ne _ _ _ _ hne

/-- C15, with the handler `f` attached to the events `A` and `B`: after
`Unregister(A, f)` the registry of `B` still holds `f`, and registering `g` on
`A` leaves the record of `B` as it was. -/
theorem other_events_untouched_witness :
    "B" ≠ "A" ∧
    ((Register rt0 State.init "A" [param0Out0Func 10]).bind fun r =>
      (Register rt0 r.state "B" [param0Out0Func 10]).map Registered.state)
      = some twoEventsState ∧
    ((Unregister twoEventsState "A" [param0Out0Func 10]).2.lookup "B").map eventHandler.handlers
      = some [handlerF] ∧
    ((Unregister twoEventsState "A" [param0Out0Func 10]).2.lookup "A").map eventHandler.handlers
      = some [] ∧
    (∀ r, Register rt0 twoEventsState "A" [param1Out0Func 20] = some r →
      r.state.lookup "B" = twoEventsState.lookup "B") := by
  have h := other_events_untouched rt0 twoEventsState "A" "B"
  refine ⟨by decide, rfl, ?_, by decide, ?_⟩
  · rw [(h [param0Out0Func 10] (by decide)).2.1]
    decide
  · exact (h [param1Out0Func 20] (by decide)).1

end ChannelEmitter
